import Mathlib

/-
  Verification development for the StarSim per-tick simulation engine.

  The Python sources (src/starsim/...) are shallowly embedded below:
  * Python float is modelled as Rat (exact rational arithmetic); the
    arithmetic is written with the kernel-computable wrappers qadd, qsub,
    qmul, qdiv, qfloor below, each proved equal to the corresponding
    standard Rat operation;
  * Python int is modelled as Int;
  * Python dict is modelled as an association list that preserves
    insertion order (updates keep the key position, fresh keys append);
  * a Python exception (ValueError / KeyError / AttributeError) is
    modelled as Option.none, threaded through each stage;
  * the seeded random source (random.Random, an external interface per
    spec section 6) is modelled as an abstract stream of rationals in
    [0,1) together with a draw index, so that every draw is a pure
    function of the seed and the number of draws made so far.
-/

/-- Kernel-computable addition on Rat (the standard Rat.add is marked
irreducible; this wrapper is proved equal to it in qadd_eq). -/
def qadd (a b : Rat) : Rat := mkRat (a.num * b.den + b.num * a.den) (a.den * b.den)

/-- Kernel-computable subtraction on Rat. -/
def qsub (a b : Rat) : Rat := mkRat (a.num * b.den - b.num * a.den) (a.den * b.den)

/-- Kernel-computable multiplication on Rat. -/
def qmul (a b : Rat) : Rat := mkRat (a.num * b.num) (a.den * b.den)

/-- Kernel-computable inverse on Rat (0 maps to 0). -/
def qinv (a : Rat) : Rat := Rat.divInt a.den a.num

/-- Kernel-computable division on Rat (division by 0 yields 0; every
division in the embedded code is guarded by a positivity test, exactly as
in the Python source, so the 0 convention is never exercised). -/
def qdiv (a b : Rat) : Rat := qmul a (qinv b)

/-- Kernel-computable floor of a Rat, as used by Python math.floor. -/
def qfloor (a : Rat) : Int := a.num / a.den

theorem qadd_eq (a b : Rat) : qadd a b = a + b := (Rat.add_def' a b).symm

theorem qsub_eq (a b : Rat) : qsub a b = a - b := (Rat.sub_def' a b).symm

theorem qmul_eq (a b : Rat) : qmul a b = a * b := by
  rw [Rat.mul_def, Rat.normalize_eq_mkRat, qmul]

theorem qinv_eq (a : Rat) : qinv a = a⁻¹ := (Rat.inv_def a).symm

theorem qdiv_eq (a b : Rat) : qdiv a b = a / b := by
  rw [qdiv, qmul_eq, qinv_eq, div_eq_mul_inv]

theorem qfloor_eq (a : Rat) : qfloor a = ⌊a⌋ := Rat.floor_def.symm

/-- Ordered association-list lookup: the value at the first occurrence of
the key, mirroring a Python dict read. -/
def alookup {α β : Type} [DecidableEq α] (k : α) : List (α × β) → Option β
  | [] => none
  | (k', v) :: rest => if k' = k then some v else alookup k rest

/-- Ordered association-list write: update in place if the key is present
(keeping its position), append at the end otherwise — the Python dict
assignment semantics. -/
def aset {α β : Type} [DecidableEq α] (k : α) (v : β) : List (α × β) → List (α × β)
  | [] => [(k, v)]
  | (k', v') :: rest => if k' = k then (k', v) :: rest else (k', v') :: aset k v rest

/-- Ordered association-list delete of the first occurrence of the key,
mirroring Python `del d[k]`. -/
def aremove {α β : Type} [DecidableEq α] (k : α) : List (α × β) → List (α × β)
  | [] => []
  | (k', v') :: rest => if k' = k then rest else (k', v') :: aremove k rest

/-- Read with a default, mirroring Python `d.get(k, default)`. -/
def agetD {α β : Type} [DecidableEq α] (m : List (α × β)) (k : α) (d : β) : β :=
  (alookup k m).getD d

/-- Python `round` on a float: round half to even, to an integer. -/
def pyRound (x : Rat) : Int :=
  let f := qfloor x
  let frac := qsub x (mkRat f 1)
  if frac < mkRat 1 2 then f
  else if mkRat 1 2 < frac then f + 1
  else if f % 2 = 0 then f else f + 1

/-- Python `"%.2f"` style formatting of a number (two decimals, round half
to even on the exact rational; Python keeps the sign of the operand even
when the rounded magnitude is zero). -/
def fmt2 (x : Rat) : String :=
  let n := pyRound (qmul x (mkRat 100 1))
  let sgn := if x < 0 then "-" else ""
  let a := n.natAbs
  let ip := a / 100
  let fp := a % 100
  let fpStr := if fp < 10 then "0" ++ toString fp else toString fp
  sgn ++ toString ip ++ "." ++ fpStr

/-- The negligible-quantity threshold 1e-9 used by Inventory
(src/starsim/economy/inventory.py). -/
def invEps : Rat := mkRat 1 1000000000

/-- src/starsim/economy/inventory.py: Inventory holds commodity-id to
quantity, a defaultdict(float) in insertion order. -/
structure Inventory where
  quantities : List (String × Rat)
deriving DecidableEq

/-- Inventory.get with an explicit default quantity. -/
def Inventory.getD (inv : Inventory) (c : String) (d : Rat) : Rat :=
  (alookup c inv.quantities).getD d

/-- Inventory.get with the default quantity 0.0. -/
def Inventory.get (inv : Inventory) (c : String) : Rat :=
  inv.getD c 0

/-- Inventory.add: rejects a negative quantity (ValueError, modelled as
none), otherwise adds onto the current quantity (0 if absent). -/
def Inventory.add (inv : Inventory) (c : String) (q : Rat) : Option Inventory :=
  if q < 0 then none
  else some ⟨aset c (qadd (inv.get c) q) inv.quantities⟩

/-- Inventory.remove_clamped: rejects a negative quantity; removes
min(q, current), returns the amount actually removed, and deletes the
entry when the remainder falls below 1e-9.  A read of a missing key
through the defaultdict inserts 0.0, which the sub-1e-9 cleanup then
deletes again, so a missing key leaves the mapping unchanged. -/
def Inventory.remove_clamped (inv : Inventory) (c : String) (q : Rat) :
    Option (Inventory × Rat) :=
  if q < 0 then none
  else
    match alookup c inv.quantities with
    | none => some (inv, 0)
    | some current =>
      let actual := min q current
      let remaining := qsub current actual
      if remaining < invEps then some (⟨aremove c inv.quantities⟩, actual)
      else some (⟨aset c remaining inv.quantities⟩, actual)

/-- Inventory.__setitem__: rejects a negative quantity; stores the value,
then deletes the entry if it is below 1e-9. -/
def Inventory.setItem (inv : Inventory) (c : String) (q : Rat) : Option Inventory :=
  if q < 0 then none
  else if q < invEps then some ⟨aremove c inv.quantities⟩
  else some ⟨aset c q inv.quantities⟩

/-- Inventory.to_dict (a shallow copy of the quantities mapping). -/
def Inventory.to_dict (inv : Inventory) : List (String × Rat) :=
  inv.quantities

/-- Every stored quantity of the inventory is non-negative. -/
def Inventory.Nonneg (inv : Inventory) : Prop :=
  ∀ p ∈ inv.quantities, (0 : Rat) ≤ p.2

instance (inv : Inventory) : Decidable inv.Nonneg := by
  unfold Inventory.Nonneg; infer_instance

example : (Inventory.remove_clamped ⟨[("food", 5)]⟩ "food" 3) =
    some (⟨[("food", 2)]⟩, 3) := by decide

example : (Inventory.remove_clamped ⟨[("food", 5)]⟩ "food" 9) =
    some (⟨[]⟩, 5) := by decide

example : (Inventory.add ⟨[]⟩ "food" (-1)) = none := by decide

/-- src/starsim/economy/commodities.py: Commodity. -/
structure Commodity where
  id : String
  name : String
  base_price : Rat
  category : String := "basic"
  is_currency : Bool := false
  decay_rate : Rat := 0
deriving DecidableEq

/-- src/starsim/economy/commodities.py: CommodityRegistry, a dict keyed
by commodity id in insertion order (all_commodities returns the values
in that order). -/
structure CommodityRegistry where
  commodities : List Commodity
deriving DecidableEq

/-- CommodityRegistry.get: the entry with the given id, none modelling
the ValueError raised on an unknown id. -/
def CommodityRegistry.get (reg : CommodityRegistry) (cid : String) : Option Commodity :=
  reg.commodities.find? (fun c => c.id == cid)

/-- CommodityRegistry.all_commodities. -/
def CommodityRegistry.all_commodities (reg : CommodityRegistry) : List Commodity :=
  reg.commodities

/-- src/starsim/economy/recipes.py: Recipe. -/
structure Recipe where
  id : String
  name : String
  inputs : List (String × Rat) := []
  outputs : List (String × Rat) := []
  max_production_units_per_tick : Rat := 0
deriving DecidableEq

/-- src/starsim/economy/recipes.py: RecipeRegistry. -/
structure RecipeRegistry where
  recipes : List Recipe
deriving DecidableEq

/-- RecipeRegistry.get: none models the ValueError on an unknown id. -/
def RecipeRegistry.get (reg : RecipeRegistry) (rid : String) : Option Recipe :=
  reg.recipes.find? (fun r => r.id == rid)

/-- src/starsim/events/model.py: one condition dictionary of an EventDef,
e.g. type "world_unrest" with optional min / max / weight_multiplier and,
for "world_tag", a tag. Missing "min" defaults to 0.0, missing "max" to
1.0 and missing "weight_multiplier" to 1.0 exactly as in the generator's
dict.get calls. -/
structure EventCondition where
  ctype : String
  minB : Rat := 0
  maxB : Rat := 1
  weight_multiplier : Rat := 1
  tag : String := ""
deriving DecidableEq

/-- src/starsim/events/model.py: one effect dictionary of an EventDef. -/
structure EventEffect where
  etype : String
  delta : Rat := 0
  commodity_id : String := ""
  quantity : Rat := 0
  lane_id : Option String := none
  num_worlds : Nat := 0
deriving DecidableEq

/-- src/starsim/events/model.py: EventDef. -/
structure EventDef where
  id : String
  base_weight : Rat := 1
  conditions : List EventCondition := []
  effects : List EventEffect := []
deriving DecidableEq

/-- src/starsim/events/registry.py: EventRegistry. -/
structure EventRegistry where
  events : List EventDef
deriving DecidableEq

/-- EventRegistry.all_events. -/
def EventRegistry.all_events (reg : EventRegistry) : List EventDef :=
  reg.events

/-- src/starsim/generation/model.py: Planet (only the fields read by the
faction AI are used by the core pipeline). -/
structure Planet where
  ptype : String
  name : String := ""
  habitability : Rat := 0
  resource_potentials : List (String × Rat) := []
  tags : List String := []
deriving DecidableEq

/-- src/starsim/economy/market.py: Market. -/
structure Market where
  inventory : Inventory := ⟨[]⟩
  prices : List (String × Rat) := []
  targets : List (String × Rat) := []
  price_change_factor : Rat := mkRat 1 10
  min_price_multiplier : Rat := mkRat 1 2
  max_price_multiplier : Rat := 2
deriving DecidableEq

/-- src/starsim/economy/consumption.py: Population. -/
structure Population where
  size : Int := 1000000
  growth_rate : Rat := mkRat 1 100
  needs : List (String × Rat) := []
  food_required_per_capita_per_tick : Rat := mkRat 1 10000
  consumer_goods_required_per_capita_per_tick : Rat := mkRat 1 10000
  consumer_goods_excess_burn_rate : Rat := mkRat 1 2
  energy_upkeep_per_capita_per_tick : Rat := mkRat 1 10000
deriving DecidableEq

/-- src/starsim/economy/production.py: Industry (recipe id to cap). -/
structure Industry where
  caps : List (String × Rat) := []
deriving DecidableEq

/-- src/starsim/factions/model.py: Faction. -/
structure Faction where
  id : String
  name : String
  color : String := "#CCCCCC"
  traits : List String := []
  weights : List (String × Rat) := []
  capital_world_id : Option String := none
  resource_desire : Rat := mkRat 1 2
deriving DecidableEq

/-- src/starsim/factions/model.py: WorldFactionState. -/
structure WorldFactionState where
  influence : List (String × Rat) := []
  garrison : List (String × Rat) := []
  control : Option String := none
  control_threshold_gain : Rat := mkRat 7 10
  control_threshold_loss : Rat := mkRat 4 10
deriving DecidableEq

/-- src/starsim/logistics/shipping.py: Shipment. -/
structure Shipment where
  commodity_id : String
  quantity : Rat
  source_world_id : String
  destination_world_id : String
  eta_tick : Int
  lane_id : Option String := none
deriving DecidableEq

/-- src/starsim/logistics/capacity.py: LaneCapacity (per-lane used
capacity for the current tick, a defaultdict(float)). -/
structure LaneCapacity where
  used_capacity : List (String × Rat) := []
deriving DecidableEq

/-- LaneCapacity.add_used_capacity. -/
def LaneCapacity.add_used_capacity (t : LaneCapacity) (lid : String) (q : Rat) :
    LaneCapacity :=
  ⟨aset lid (qadd (agetD t.used_capacity lid 0) q) t.used_capacity⟩

/-- LaneCapacity.get_remaining_capacity. -/
def LaneCapacity.get_remaining_capacity (t : LaneCapacity) (lid : String)
    (total : Rat) : Rat :=
  max 0 (qsub total (agetD t.used_capacity lid 0))

/-- LaneCapacity.reset. -/
def LaneCapacity.reset (_ : LaneCapacity) : LaneCapacity := ⟨[]⟩

/-- src/starsim/world/model.py: World with its optional components. -/
structure World where
  id : String
  name : String
  stability : Rat := 1
  prosperity : Rat := 1
  tech : Rat := 1
  tags : List String := []
  x : Rat := 0
  y : Rat := 0
  scarcity : Rat := 0
  unrest : Rat := 0
  food_balance : Rat := 0
  starvation_level : Rat := 0
  consumer_goods_balance : Rat := 0
  consumer_goods_shortage_level : Rat := 0
  planets : List Planet := []
  market : Option Market := none
  population : Option Population := none
  industry : Option Industry := none
  factions : Option WorldFactionState := none
  control : Option String := none
deriving DecidableEq

/-- src/starsim/world/model.py: Lane. -/
structure Lane where
  id : String
  a : String
  b : String
  distance : Rat := 1
  hazard : Rat := 0
  capacity : Rat := 1
deriving DecidableEq

/-- The seeded random source (spec section 6; Python random.Random is
stdlib, external to the repository).  Modelled from the spec: an abstract
stream of uniform draws in [0,1), indexed by the number of draws made so
far, so each draw is a pure function of the stream and the index. -/
structure Rng where
  stream : Nat → Rat
  idx : Nat

/-- One uniform draw (random.random()), advancing the draw index. -/
def Rng.random (r : Rng) : Rat × Rng :=
  (r.stream r.idx, ⟨r.stream, r.idx + 1⟩)

/-- src/starsim/core/state.py: UniverseState. -/
structure UniverseState where
  seed : Int
  tick : Int := 0
  rng : Rng
  worlds : List World := []
  lanes : List Lane := []
  commodity_registry : CommodityRegistry := ⟨[]⟩
  recipe_registry : RecipeRegistry := ⟨[]⟩
  event_registry : EventRegistry := ⟨[]⟩
  factions : List Faction := []
  active_shipments : List Shipment := []
  lane_capacity_tracker : LaneCapacity := ⟨[]⟩

/-- Dict read state.worlds[wid] (none models KeyError / a failed .get). -/
def UniverseState.getWorld (s : UniverseState) (wid : String) : Option World :=
  s.worlds.find? (fun w => w.id == wid)

/-- Dict read state.lanes[lid]. -/
def UniverseState.getLane (s : UniverseState) (lid : String) : Option Lane :=
  s.lanes.find? (fun l => l.id == lid)

/-- In-place mutation of a world object (worlds are keyed by id; the dict
entry is the same object that was mutated). -/
def UniverseState.setWorld (s : UniverseState) (w : World) : UniverseState :=
  { s with worlds := s.worlds.map (fun x => if x.id = w.id then w else x) }

/-- In-place mutation of a lane object. -/
def UniverseState.setLane (s : UniverseState) (l : Lane) : UniverseState :=
  { s with lanes := s.lanes.map (fun x => if x.id = l.id then l else x) }

/-- src/starsim/core/state.py: lanes_from — the lanes incident to a world,
in lane-dict insertion order (rebuild_adjacency appends lane ids in that
order; reads go back through the lanes dict). -/
def UniverseState.lanes_from (s : UniverseState) (wid : String) : List Lane :=
  s.lanes.filter (fun l => l.a == wid || l.b == wid)

/-- src/starsim/core/state.py: neighbors — the opposite endpoints of the
incident lanes, in the same order. -/
def UniverseState.neighbors (s : UniverseState) (wid : String) : List String :=
  (s.lanes_from wid).map (fun l => if l.a = wid then l.b else l.a)

/-- src/starsim/economy/market.py update_prices, first loop body: lazily
add a default target (10.0) and default price (the commodity base price)
when missing. -/
def market_price_defaults_body (acc : Market) (com : Commodity) : Market :=
  let acc1 :=
    match alookup com.id acc.targets with
    | none => { acc with targets := aset com.id (10 : Rat) acc.targets }
    | some _ => acc
  match alookup com.id acc1.prices with
  | none => { acc1 with prices := aset com.id com.base_price acc1.prices }
  | some _ => acc1

/-- src/starsim/economy/market.py update_prices, first loop: the default
completion over every registry commodity. -/
def market_price_defaults (reg : CommodityRegistry) (m : Market) : Market :=
  reg.commodities.foldl market_price_defaults_body m

/-- src/starsim/economy/market.py update_prices, second loop, iterating a
snapshot of market.targets (the targets map is not modified inside the
loop): ratio-driven adjustment then clamp into the base-price band.  The
registry lookup is evaluated eagerly for the prices.get default exactly as
in Python, so an unknown commodity id raises (none). -/
def update_prices_loop (reg : CommodityRegistry) :
    List (String × Rat) → Market → Option Market
  | [], m => some m
  | (cid, target_qty) :: rest, m => do
    let com ← reg.get cid
    let current_qty := m.inventory.get cid
    let current_price := agetD m.prices cid com.base_price
    let r := if (0 : Rat) < target_qty then qdiv current_qty target_qty else (10 : Rat)
    let price_adjustment := qmul (qsub 1 r) m.price_change_factor
    let new_price := qmul current_price (qadd 1 price_adjustment)
    let base_price := com.base_price
    let min_bound := qmul base_price m.min_price_multiplier
    let max_bound := qmul base_price m.max_price_multiplier
    update_prices_loop reg rest
      { m with prices := aset cid (max min_bound (min max_bound new_price)) m.prices }

/-- src/starsim/economy/market.py: update_prices(world, state).  A world
without a market is left unchanged. -/
def update_prices (world : World) (reg : CommodityRegistry) : Option World :=
  match world.market with
  | none => some world
  | some market0 => do
    let market1 := market_price_defaults reg market0
    let market2 ← update_prices_loop reg market1.targets market1
    some { world with market := some market2 }

/-- src/starsim/economy/consumption.py: the generic per-commodity needs
loop at the end of consume (food and consumer_goods are skipped; pressures
move only when the shortage fraction exceeds the 0.1 dead-band).  The
accumulator carries (inventory, scarcity, stability, unrest). -/
def consume_needs (size : Int) :
    List (String × Rat) → Inventory × Rat × Rat × Rat →
    Option (Inventory × Rat × Rat × Rat)
  | [], acc => some acc
  | (cid, need_per_capita) :: rest, (inv, sc, st, un) =>
    if cid = "food" ∨ cid = "consumer_goods" then
      consume_needs size rest (inv, sc, st, un)
    else do
      let needed_qty := qmul need_per_capita (mkRat size 1)
      let (inv', actual_consumed) ← inv.remove_clamped cid needed_qty
      let sr :=
        if (0 : Rat) < needed_qty then qdiv (qsub needed_qty actual_consumed) needed_qty
        else 0
      if mkRat 1 10 < sr then
        consume_needs size rest
          (inv', min 1 (qadd sc (qmul sr (mkRat 1 100))),
            max 0 (qsub st (qmul sr (mkRat 5 100))),
            min 1 (qadd un (qmul sr (mkRat 5 100))))
      else
        consume_needs size rest (inv', sc, st, un)

/-- src/starsim/economy/consumption.py consume: the food block —
remove the needed food when the need is positive, yielding the new
inventory, the actual consumption and the shortage fraction. -/
def consume_food_phase (market : Market) (total_food_needed : Rat) :
    Option (Inventory × Rat × Rat) :=
  if (0 : Rat) < total_food_needed then do
    let (inv1, act) ← market.inventory.remove_clamped "food" total_food_needed
    some (inv1, act, qdiv (qsub total_food_needed act) total_food_needed)
  else some (market.inventory, (0 : Rat), (0 : Rat))

/-- src/starsim/economy/consumption.py consume: the consumer-goods
removal block, same shape as the food block. -/
def consume_cg_phase (inv1 : Inventory) (total_cg_needed : Rat) :
    Option (Inventory × Rat × Rat) :=
  if (0 : Rat) < total_cg_needed then do
    let (inv2, act) ← inv1.remove_clamped "consumer_goods" total_cg_needed
    some (inv2, act, qdiv (qsub total_cg_needed act) total_cg_needed)
  else some (inv1, (0 : Rat), (0 : Rat))

/-- src/starsim/economy/consumption.py consume: the consumer-goods
effect block — a shortage hurts stability/prosperity/unrest, an excess
burns part of the surplus and boosts stability. -/
def consume_cg_effects (population : Population) (prosperity0 : Rat)
    (stability1 unrest1 : Rat) (cg_available : Rat) (size1 : Int)
    (inv2 : Inventory) (actual_cg_consumed cg_shortage_frac : Rat) :
    Option (Inventory × Rat × Rat × Rat) :=
  if (0 : Rat) < cg_shortage_frac then
    some (inv2,
      max 0 (qsub stability1 (qmul cg_shortage_frac (mkRat 2 100))),
      max 0 (qsub prosperity0 (qmul cg_shortage_frac (mkRat 1 100))),
      min 1 (qadd unrest1 (qmul cg_shortage_frac (mkRat 1 100))))
  else
    let excess := qsub cg_available actual_cg_consumed
    if (0 : Rat) < excess ∧ 0 < size1 then do
      let cg_excess_per_capita := qdiv excess (mkRat size1 1)
      let stability_bonus := qmul (qmul cg_excess_per_capita (mkRat 100 1)) (mkRat 5 1000)
      let burn_amount := qmul excess population.consumer_goods_excess_burn_rate
      let (inv3, _) ← inv2.remove_clamped "consumer_goods" burn_amount
      some (inv3, min 1 (qadd stability1 stability_bonus), prosperity0, unrest1)
    else some (inv2, stability1, prosperity0, unrest1)

/-- src/starsim/economy/consumption.py: consume(world, tick), sequencing
the food phase, the population/size update, the consumer-goods phase and
the generic needs loop.  The tick argument is unused, exactly as in the
source.  A world lacking population or market is returned unchanged. -/
def consume (world : World) (tick : Int) : Option World :=
  let _ := tick
  match world.population, world.market with
  | some population, some market => do
    -- Food (Milestone 14)
    let total_food_needed :=
      qmul (mkRat population.size 1) population.food_required_per_capita_per_tick
    let (inv1, actual_food_consumed, food_shortage_frac) ←
      consume_food_phase market total_food_needed
    let food_balance := qsub actual_food_consumed total_food_needed
    let starvation_level := food_shortage_frac
    let size1 : Int :=
      if (0 : Rat) < food_shortage_frac then
        let decline_factor := qmul food_shortage_frac (mkRat 5 100)
        max 0 (qfloor (qmul (mkRat population.size 1) (qsub 1 decline_factor)))
      else if 0 < population.size then
        let growth_multiplier := qdiv (qadd world.stability world.prosperity) 2
        let growth_amount :=
          qmul (qmul (mkRat population.size 1) population.growth_rate) growth_multiplier
        qfloor (qmul (mkRat population.size 1)
          (qadd 1 (qdiv growth_amount (mkRat population.size 1))))
      else population.size
    let scarcity1 := min 1 (qadd world.scarcity (qmul food_shortage_frac (mkRat 2 100)))
    let unrest1 := min 1 (qadd world.unrest (qmul food_shortage_frac (mkRat 3 100)))
    let stability1 := max 0 (qsub world.stability (qmul food_shortage_frac (mkRat 4 100)))
    -- Consumer goods (Milestone 15)
    let total_cg_needed :=
      qmul (mkRat size1 1) population.consumer_goods_required_per_capita_per_tick
    let cg_available := inv1.get "consumer_goods"
    let (inv2, actual_cg_consumed, cg_shortage_frac) ←
      consume_cg_phase inv1 total_cg_needed
    let consumer_goods_balance := qsub actual_cg_consumed total_cg_needed
    let (inv3, stability2, prosperity2, unrest2) ←
      consume_cg_effects population world.prosperity stability1 unrest1
        cg_available size1 inv2 actual_cg_consumed cg_shortage_frac
    -- Other commodity needs
    let (inv4, scarcity2, stability3, unrest3) ←
      consume_needs size1 population.needs (inv3, scarcity1, stability2, unrest2)
    some { world with
      population := some { population with size := size1 }
      market := some { market with inventory := inv4 }
      stability := stability3
      prosperity := prosperity2
      unrest := unrest3
      scarcity := scarcity2
      food_balance := food_balance
      starvation_level := starvation_level
      consumer_goods_balance := consumer_goods_balance
      consumer_goods_shortage_level := cg_shortage_frac }
  | _, _ => some world

/-- src/starsim/economy/production.py: the running minimum of
available/per-unit over the inputs with a positive per-unit requirement
(none plays the role of the initial float('inf')). -/
def produce_inputs_bound (inv : Inventory) :
    List (String × Rat) → Option Rat → Option Rat
  | [], acc => acc
  | (iid, per_unit) :: rest, acc =>
    if (0 : Rat) < per_unit then
      let b := qdiv (inv.get iid) per_unit
      produce_inputs_bound inv rest
        (some (match acc with | none => b | some m => min m b))
    else produce_inputs_bound inv rest acc

/-- src/starsim/economy/production.py: consume input_qty_per_unit times
production_units of every input, through remove_clamped. -/
def produce_consume_inputs (units : Rat) :
    List (String × Rat) → Inventory → Option Inventory
  | [], inv => some inv
  | (iid, per_unit) :: rest, inv => do
    let (inv', _) ← inv.remove_clamped iid (qmul per_unit units)
    produce_consume_inputs units rest inv'

/-- src/starsim/economy/production.py: add output_qty_per_unit times
production_units of every output. -/
def produce_add_outputs (units : Rat) :
    List (String × Rat) → Inventory → Option Inventory
  | [], inv => some inv
  | (oid, per_unit) :: rest, inv => do
    let inv' ← inv.add oid (qmul per_unit units)
    produce_add_outputs units rest inv'

/-- src/starsim/economy/production.py: the loop over industry caps.
production_units = min(cap, recipe.max_production_units_per_tick,
input bound); nothing happens unless it is positive. -/
def produce_loop (reg : RecipeRegistry) :
    List (String × Rat) → Market → Option Market
  | [], m => some m
  | (rid, cap_amount) :: rest, m => do
    let recipe ← reg.get rid
    let bound := produce_inputs_bound m.inventory recipe.inputs none
    let production_units :=
      match bound with
      | none => min cap_amount recipe.max_production_units_per_tick
      | some b => min (min cap_amount recipe.max_production_units_per_tick) b
    if (0 : Rat) < production_units then do
      let inv1 ← produce_consume_inputs production_units recipe.inputs m.inventory
      let inv2 ← produce_add_outputs production_units recipe.outputs inv1
      produce_loop reg rest { m with inventory := inv2 }
    else produce_loop reg rest m

/-- src/starsim/economy/production.py: produce(world, state).  A world
lacking market or industry is returned unchanged. -/
def produce (world : World) (reg : RecipeRegistry) : Option World :=
  match world.market, world.industry with
  | some market, some industry => do
    let m' ← produce_loop reg industry.caps market
    some { world with market := some m' }
  | _, _ => some world

/-- src/starsim/economy/trade.py: the TRADE_THRESHOLD minimum profit
margin (0.1). -/
def TRADE_THRESHOLD : Rat := mkRat 1 10

/-- src/starsim/economy/trade.py build_candidate_trades: the sum of
in-flight quantities per (destination world, commodity), accumulated over
active shipments in order. -/
def incoming_by_world_commodity (shipments : List Shipment) :
    List ((String × String) × Rat) :=
  shipments.foldl
    (fun acc sh =>
      aset (sh.destination_world_id, sh.commodity_id)
        (qadd (agetD acc (sh.destination_world_id, sh.commodity_id) 0) sh.quantity) acc)
    []

/-- src/starsim/economy/trade.py build_candidate_trades: the candidate
shipments one commodity contributes on one lane — the A-to-B arbitrage
check (quantity min(source stock, 10)) followed by the B-to-A check
(quantity additionally capped by the destination deficit net of incoming
shipments).  none models the registry ValueError. -/
def bct_one (s : UniverseState) (incoming : List ((String × String) × Rat))
    (lane : Lane) (world_a world_b : World) (market_a market_b : Market)
    (com : Commodity) : Option (List Shipment) :=
  match alookup com.id market_a.prices, alookup com.id market_b.prices with
  | some price_a, some price_b => do
    let c ← s.commodity_registry.get com.id
    let base_price := c.base_price
    let shipping_cost_per_unit :=
      qmul base_price (qadd (qmul lane.distance (mkRat 1 100)) (qmul lane.hazard (mkRat 5 100)))
    let profit_a_to_b := qsub (qsub price_b price_a) shipping_cost_per_unit
    let ab : List Shipment :=
      if price_a < base_price ∧ base_price < price_b ∧ TRADE_THRESHOLD < profit_a_to_b then
        let trade_qty := min (market_a.inventory.get com.id) 10
        if 0 < trade_qty then
          [{ commodity_id := com.id, quantity := trade_qty,
             source_world_id := world_a.id, destination_world_id := world_b.id,
             eta_tick := s.tick + pyRound lane.distance, lane_id := some lane.id }]
        else []
      else []
    let profit_b_to_a := qsub (qsub price_a price_b) shipping_cost_per_unit
    let ba : List Shipment :=
      if price_b < base_price ∧ base_price < price_a ∧ TRADE_THRESHOLD < profit_b_to_a then
        let dest_target := agetD market_a.targets com.id 10
        let dest_qty := market_a.inventory.get com.id
        let incoming_qty := agetD incoming (world_a.id, com.id) 0
        let dest_deficit := max 0 (qsub dest_target (qadd dest_qty incoming_qty))
        let trade_qty := min (min (market_b.inventory.get com.id) 10) dest_deficit
        if 0 < trade_qty then
          [{ commodity_id := com.id, quantity := trade_qty,
             source_world_id := world_b.id, destination_world_id := world_a.id,
             eta_tick := s.tick + pyRound lane.distance, lane_id := some lane.id }]
        else []
      else []
    some (ab ++ ba)
  | _, _ => some []

/-- build_candidate_trades: loop over the commodity registry for one
lane. -/
def bct_commodities (s : UniverseState) (incoming : List ((String × String) × Rat))
    (lane : Lane) (world_a world_b : World) (market_a market_b : Market) :
    List Commodity → Option (List Shipment)
  | [] => some []
  | com :: rest => do
    let here ← bct_one s incoming lane world_a world_b market_a market_b com
    let further ← bct_commodities s incoming lane world_a world_b market_a market_b rest
    some (here ++ further)

/-- build_candidate_trades: loop over lanes; a lane whose endpoints are
missing or market-less contributes nothing. -/
def bct_lanes (s : UniverseState) (incoming : List ((String × String) × Rat)) :
    List Lane → Option (List Shipment)
  | [] => some []
  | lane :: rest =>
    match s.getWorld lane.a, s.getWorld lane.b with
    | some world_a, some world_b =>
      match world_a.market, world_b.market with
      | some market_a, some market_b => do
        let here ← bct_commodities s incoming lane world_a world_b market_a market_b
          s.commodity_registry.all_commodities
        let further ← bct_lanes s incoming rest
        some (here ++ further)
      | _, _ => bct_lanes s incoming rest
    | _, _ => bct_lanes s incoming rest

/-- src/starsim/economy/trade.py: build_candidate_trades(state). -/
def build_candidate_trades (s : UniverseState) : Option (List Shipment) :=
  bct_lanes s (incoming_by_world_commodity s.active_shipments) s.lanes

/-- src/starsim/economy/trade.py process_trade, step 2: admit candidate
shipments one by one.  A candidate whose lane_id is falsy (None or the
empty string) is skipped; one that exceeds the remaining lane capacity is
dropped entirely; otherwise the removable amount is deducted at the
source and the shipment is appended (with its original quantity) when the
deduction was positive, the used capacity being advanced by the deducted
amount. -/
def process_new_shipments : List Shipment → UniverseState → Option UniverseState
  | [], s => some s
  | shipment :: rest, s =>
    match shipment.lane_id with
    | none => process_new_shipments rest s
    | some lid =>
      if lid = "" then process_new_shipments rest s
      else do
        let lane ← s.getLane lid
        let remaining_capacity :=
          s.lane_capacity_tracker.get_remaining_capacity lid lane.capacity
        if shipment.quantity ≤ remaining_capacity then do
          let source_world ← s.getWorld shipment.source_world_id
          let market ← source_world.market
          let (inv', actual_deducted) ←
            market.inventory.remove_clamped shipment.commodity_id shipment.quantity
          let s1 := s.setWorld
            { source_world with market := some { market with inventory := inv' } }
          let s2 :=
            if 0 < actual_deducted then
              { s1 with
                active_shipments := s1.active_shipments ++ [shipment],
                lane_capacity_tracker :=
                  s1.lane_capacity_tracker.add_used_capacity lid actual_deducted }
            else s1
          process_new_shipments rest s2
        else
          process_new_shipments rest s

/-- src/starsim/economy/trade.py process_trade, step 3: walk the active
shipments; one whose ETA has elapsed credits the destination inventory
and is collected as arrived, the others are retained. -/
def process_arrivals :
    List Shipment → UniverseState → List Shipment → List Shipment →
    Option (UniverseState × List Shipment × List Shipment)
  | [], s, arrived, remaining => some (s, arrived, remaining)
  | shipment :: rest, s, arrived, remaining =>
    if shipment.eta_tick ≤ s.tick then do
      let destination_world ← s.getWorld shipment.destination_world_id
      let market ← destination_world.market
      let inv' ← market.inventory.add shipment.commodity_id shipment.quantity
      let s1 := s.setWorld
        { destination_world with market := some { market with inventory := inv' } }
      process_arrivals rest s1 (arrived ++ [shipment]) remaining
    else
      process_arrivals rest s arrived (remaining ++ [shipment])

/-- src/starsim/economy/trade.py: process_trade(state, allow_new_trades),
returning the updated state and the arrived shipments. -/
def process_trade (s0 : UniverseState) (allow_new_trades : Bool) :
    Option (UniverseState × List Shipment) := do
  let s1 := { s0 with lane_capacity_tracker := s0.lane_capacity_tracker.reset }
  let s2 ←
    if allow_new_trades then do
      let new_shipments ← build_candidate_trades s1
      process_new_shipments new_shipments s1
    else some s1
  let (s3, arrived, remaining) ← process_arrivals s2.active_shipments s2 [] []
  some ({ s3 with active_shipments := remaining }, arrived)

/-- Python max(iterable, key=...) over the influence entries: the first
entry whose value is not exceeded by any later one (ties keep the earlier
entry, since max only replaces on a strict increase). -/
def max_by_val (best : String × Rat) : List (String × Rat) → String × Rat
  | [] => best
  | (k, v) :: rest => if best.2 < v then max_by_val (k, v) rest else max_by_val best rest

/-- src/starsim/factions/model.py: WorldFactionState.resolve_control, the
hysteresis state machine.  An empty influence map clears control; else
the leader is the first faction attaining the maximal influence; a world
without control is taken when the leader reaches the gain threshold; a
controller that is itself the leader is kept; otherwise control flips to
the leader only when the leader reaches the gain threshold and the
controller has fallen below the loss threshold. -/
def WorldFactionState.resolve_control (fs : WorldFactionState) : WorldFactionState :=
  match fs.influence with
  | [] => { fs with control := none }
  | e :: rest =>
    let dom := max_by_val e rest
    let current_dominant_faction := dom.1
    let highest_influence := agetD fs.influence current_dominant_faction 0
    match fs.control with
    | none =>
      if fs.control_threshold_gain ≤ highest_influence then
        { fs with control := some current_dominant_faction }
      else fs
    | some ctrl =>
      if ctrl = current_dominant_faction then fs
      else if fs.control_threshold_gain ≤ highest_influence ∧
          agetD fs.influence ctrl 0 < fs.control_threshold_loss then
        { fs with control := some current_dominant_faction }
      else fs

/-- src/starsim/factions/ai.py compute_world_value: total planetary
resource potential over all planets. -/
def planet_potential_total (ps : List Planet) : Rat :=
  ps.foldl (fun acc p => p.resource_potentials.foldl (fun a q => qadd a q.2) acc) 0

/-- src/starsim/factions/ai.py: compute_world_value(faction, world,
state), a pure additive heuristic.  math.sqrt (irrational on Rat) is
abstracted as the sqrtFn parameter; every claim about the faction AI is
stated for every sqrtFn. -/
def compute_world_value (sqrtFn : Rat → Rat) (faction : Faction) (world : World)
    (s : UniverseState) : Rat :=
  let score : Rat := 0
  -- Economic factors
  let score :=
    match world.market with
    | some market =>
      let score := qadd score (qmul (market.inventory.getD "food" 0) (mkRat 1 100))
      qadd score (qmul (market.inventory.getD "minerals" 0) (mkRat 5 1000))
    | none => score
  let score :=
    match world.industry with
    | some industry => qadd score (qmul (mkRat industry.caps.length 1) (mkRat 10 1))
    | none => score
  -- Resource prioritization (world.planets is truthy when non-empty)
  let score :=
    if world.planets ≠ [] ∧ 0 < faction.resource_desire then
      qadd score (qmul (qmul (planet_potential_total world.planets) faction.resource_desire)
        (mkRat 1 2))
    else score
  -- Trait-based resource bias
  let score :=
    if "expansionist" ∈ faction.traits then
      if world.planets ≠ [] then
        world.planets.foldl
          (fun acc p =>
            let acc := qadd acc (qmul (agetD p.resource_potentials "food" 0) (mkRat 2 1))
            qadd acc (qmul (agetD p.resource_potentials "minerals" 0) (mkRat 3 2)))
          score
      else score
    else score
  let score :=
    if "aggressive" ∈ faction.traits then
      if world.planets ≠ [] then
        world.planets.foldl
          (fun acc p =>
            let acc := qadd acc (qmul (agetD p.resource_potentials "alloy" 0) (mkRat 5 2))
            qadd acc (qmul (agetD p.resource_potentials "energy" 0) (mkRat 1 1)))
          score
      else score
    else score
  -- Geographic factors
  let score := qadd score (qmul (mkRat (s.neighbors world.id).length 1) (mkRat 2 1))
  let score :=
    match faction.capital_world_id with
    | some cap_id =>
      if cap_id ≠ "" then
        match s.getWorld cap_id with
        | some capital_world =>
          if world.id ≠ cap_id then
            let dx := qsub world.x capital_world.x
            let dy := qsub world.y capital_world.y
            let distance := sqrtFn (qadd (qmul dx dx) (qmul dy dy))
            qadd score (max 0 (qmul (qsub (mkRat 100 1) distance) (mkRat 1 10)))
          else score
        | none => score
      else score
    | none => score
  -- World stability and prosperity
  let score := qadd score (qmul world.stability (mkRat 5 1))
  let score := qadd score (qmul world.prosperity (mkRat 5 1))
  -- Planet count
  let score := qadd score (qmul (mkRat world.planets.length 1) (mkRat 2 1))
  -- Symbolic factors
  let score := if "capital" ∈ world.tags then qadd score (mkRat 50 1) else score
  let score := if "sacred" ∈ world.tags then qadd score (mkRat 30 1) else score
  -- Threat / control factors
  let score :=
    match world.factions with
    | some fs =>
      match fs.control with
      | some ctrl =>
        if ctrl = faction.id then qadd score (mkRat 20 1)
        else
          let score := qsub score (mkRat 5 1)
          let score :=
            match alookup faction.id fs.influence with
            | some own => qadd score (qmul own (mkRat 5 1))
            | none => score
          fs.influence.foldl
            (fun acc q =>
              if q.1 ≠ faction.id ∧ some q.1 = fs.control then
                qsub acc (qmul q.2 (mkRat 10 1))
              else acc)
            score
      | none => qadd score (mkRat 10 1)
    | none => score
  -- Instability / unrest penalties
  let score := qsub score (qmul world.unrest (mkRat 10 1))
  let score := qsub score (qmul world.scarcity (mkRat 5 1))
  qsub score (qmul (qsub 1 world.stability) (mkRat 15 1))

/-- src/starsim/factions/ai.py select_action: the greedy best-so-far
action record {type, target, score}; the initial sentinel carries score
minus infinity, modelled as the bottom of WithBot Rat. -/
structure ActionPlan where
  atype : String
  target : Option String
  score : WithBot Rat
deriving DecidableEq

/-- The no_action sentinel select_action starts from. -/
def no_action_plan : ActionPlan :=
  { atype := "no_action", target := none, score := ⊥ }

/-- select_action: the candidate-expansion set — for every world the
faction controls, every neighbor not controlled by it, first-seen order
without duplicates (a Python set; its iteration order is
hash-dependent but fixed within a process, modelled here as insertion
order).  none models the KeyError on a neighbor id absent from the
worlds dict. -/
def candidate_expansion_worlds (s : UniverseState) (faction : Faction)
    (controlled : List String) : Option (List String) :=
  controlled.foldlM
    (fun acc cw =>
      (s.neighbors cw).foldlM
        (fun (acc2 : List String) n => do
          let neighbor_world ← s.getWorld n
          let eligible : Bool :=
            match neighbor_world.factions with
            | none => true
            | some fs => fs.control != some faction.id
          if eligible then
            if n ∉ acc2 then some (acc2 ++ [n]) else some acc2
          else some acc2)
        acc)
    []

/-- select_action: fold the expansion candidates through the greedy
strictly-better update. -/
def select_expansion (sqrtFn : Rat → Rat) (faction : Faction) (s : UniverseState) :
    List String → ActionPlan → Option ActionPlan
  | [], best => some best
  | wid :: rest, best => do
    let world ← s.getWorld wid
    let value := compute_world_value sqrtFn faction world s
    let best' :=
      if best.score < (value : WithBot Rat) then
        { atype := "expand_influence", target := some world.id, score := (value : WithBot Rat) }
      else best
    select_expansion sqrtFn faction s rest best'

/-- select_action: the civilian-investment loop over owned worlds with at
least 10 minerals in stock. -/
def select_invest_civilian (faction : Faction) :
    List World → ActionPlan → ActionPlan
  | [], best => best
  | world :: rest, best =>
    let owned : Bool :=
      match world.factions with
      | some fs => fs.control == some faction.id
      | none => false
    if owned then
      match world.market with
      | some market =>
        if (10 : Rat) ≤ market.inventory.get "minerals" then
          let sc := qadd (qmul world.prosperity (mkRat 10 1))
            (qmul (qsub 1 world.scarcity) (mkRat 5 1))
          let best' :=
            if best.score < (sc : WithBot Rat) then
              { atype := "invest_civilian", target := some world.id, score := (sc : WithBot Rat) }
            else best
          select_invest_civilian faction rest best'
        else select_invest_civilian faction rest best
      | none => select_invest_civilian faction rest best
    else select_invest_civilian faction rest best

/-- select_action: the military-investment loop over owned worlds with at
least 5 alloy in stock. -/
def select_invest_military (faction : Faction) :
    List World → ActionPlan → ActionPlan
  | [], best => best
  | world :: rest, best =>
    let owned : Bool :=
      match world.factions with
      | some fs => fs.control == some faction.id
      | none => false
    if owned then
      match world.market with
      | some market =>
        if (5 : Rat) ≤ market.inventory.get "alloy" then
          let sc := qadd (qmul world.unrest (mkRat 10 1))
            (qmul (qsub 1 world.stability) (mkRat 5 1))
          let best' :=
            if best.score < (sc : WithBot Rat) then
              { atype := "invest_military", target := some world.id, score := (sc : WithBot Rat) }
            else best
          select_invest_military faction rest best'
        else select_invest_military faction rest best
      | none => select_invest_military faction rest best
    else select_invest_military faction rest best

/-- src/starsim/factions/ai.py: select_action(faction, state) — greedy,
one candidate category after another, first strictly better candidate
wins.  The civilian loop runs only for factions with the expansionist
trait (a non-empty trait set containing it), the military loop only for
the aggressive trait. -/
def select_action (sqrtFn : Rat → Rat) (faction : Faction) (s : UniverseState) :
    Option ActionPlan := do
  let controlled_worlds :=
    (s.worlds.filter
      (fun w =>
        match w.factions with
        | some fs => fs.control = some faction.id
        | none => false)).map (fun w => w.id)
  let cands ← candidate_expansion_worlds s faction controlled_worlds
  let best1 ← select_expansion sqrtFn faction s cands no_action_plan
  let best2 :=
    if faction.traits ≠ [] ∧ "expansionist" ∈ faction.traits then
      select_invest_civilian faction s.worlds best1
    else best1
  let best3 :=
    if faction.traits ≠ [] ∧ "aggressive" ∈ faction.traits then
      select_invest_military faction s.worlds best2
    else best2
  some best3

/-- random.Random.choice(seq) (stdlib, external interface per spec
section 6).  Modelled from the spec: one uniform draw selects an index;
an empty sequence raises (none). -/
def pyChoice {α : Type} (r : Rng) (l : List α) : Option (α × Rng) :=
  let (u, r') := r.random
  match l.get? (min (qfloor (qmul u (mkRat l.length 1))).toNat (l.length - 1)) with
  | some x => some (x, r')
  | none => none

/-- src/starsim/factions/actions.py: expand_influence — add 0.1 influence
for the acting faction in the target world and re-resolve control.
Returns the success flag together with the updated state. -/
def expand_influence (faction_id world_id : String) (s : UniverseState) :
    Bool × UniverseState :=
  match s.getWorld world_id with
  | some world =>
    match world.factions with
    | some fs =>
      let fs1 := { fs with
        influence := aset faction_id (qadd (agetD fs.influence faction_id 0) (mkRat 1 10))
          fs.influence }
      let fs2 := fs1.resolve_control
      (true, s.setWorld { world with factions := some fs2 })
    | none => (false, s)
  | none => (false, s)

/-- src/starsim/factions/actions.py: reinforce — add 10 garrison. -/
def reinforce (faction_id world_id : String) (s : UniverseState) :
    Bool × UniverseState :=
  match s.getWorld world_id with
  | some world =>
    match world.factions with
    | some fs =>
      let fs1 := { fs with
        garrison := aset faction_id (qadd (agetD fs.garrison faction_id 0) (mkRat 10 1))
          fs.garrison }
      (true, s.setWorld { world with factions := some fs1 })
    | none => (false, s)
  | none => (false, s)

/-- src/starsim/factions/actions.py: raid_lane — hazard + 0.1 clamped to
at most 1. -/
def raid_lane (faction_id lane_id : String) (s : UniverseState) :
    Bool × UniverseState :=
  let _ := faction_id
  match s.getLane lane_id with
  | some lane =>
    (true, s.setLane { lane with hazard := min 1 (qadd lane.hazard (mkRat 1 10)) })
  | none => (false, s)

/-- src/starsim/factions/actions.py: patrol_lane — hazard - 0.05 clamped
to at least 0. -/
def patrol_lane (faction_id lane_id : String) (s : UniverseState) :
    Bool × UniverseState :=
  let _ := faction_id
  match s.getLane lane_id with
  | some lane =>
    (true, s.setLane { lane with hazard := max 0 (qsub lane.hazard (mkRat 5 100)) })
  | none => (false, s)

/-- src/starsim/factions/actions.py: aid_world — stability and prosperity
each + 0.05 clamped to at most 1. -/
def aid_world (faction_id world_id : String) (s : UniverseState) :
    Bool × UniverseState :=
  let _ := faction_id
  match s.getWorld world_id with
  | some world =>
    (true, s.setWorld { world with
      stability := min 1 (qadd world.stability (mkRat 5 100)),
      prosperity := min 1 (qadd world.prosperity (mkRat 5 100)) })
  | none => (false, s)

/-- src/starsim/economy/investment.py: invest_civilian(world, state) —
consume 10 minerals when available and raise the cap of one randomly
chosen civilian recipe present in the world's industry. -/
def invest_civilian (world : World) (s : UniverseState) : Option UniverseState :=
  match world.market, world.industry with
  | some market, some industry =>
    if (10 : Rat) ≤ market.inventory.get "minerals" then do
      let (inv', _) ← market.inventory.remove_clamped "minerals" (mkRat 10 1)
      let world1 := { world with market := some { market with inventory := inv' } }
      let available_civilian_recipes :=
        (["farm_food", "mine_minerals", "refine_consumer_goods"].filter
          (fun r => (alookup r industry.caps).isSome))
      match available_civilian_recipes with
      | [] => some (s.setWorld world1)
      | _ :: _ => do
        let (target_recipe_id, rng') ← pyChoice s.rng available_civilian_recipes
        let industry1 := { industry with
          caps := aset target_recipe_id (qadd (agetD industry.caps target_recipe_id 0) 1)
            industry.caps }
        some { (s.setWorld { world1 with industry := some industry1 }) with rng := rng' }
    else some s
  | _, _ => some s

/-- src/starsim/economy/investment.py: invest_military(world, state) —
consume 5 alloy when available and raise the cap of one randomly chosen
military recipe present in the world's industry. -/
def invest_military (world : World) (s : UniverseState) : Option UniverseState :=
  match world.market, world.industry with
  | some market, some industry =>
    if (5 : Rat) ≤ market.inventory.get "alloy" then do
      let (inv', _) ← market.inventory.remove_clamped "alloy" (mkRat 5 1)
      let world1 := { world with market := some { market with inventory := inv' } }
      let available_military_recipes :=
        (["refine_alloy", "assemble_alloys"].filter
          (fun r => (alookup r industry.caps).isSome))
      match available_military_recipes with
      | [] => some (s.setWorld world1)
      | _ :: _ => do
        let (target_recipe_id, rng') ← pyChoice s.rng available_military_recipes
        let industry1 := { industry with
          caps := aset target_recipe_id (qadd (agetD industry.caps target_recipe_id 0) 1)
            industry.caps }
        some { (s.setWorld { world1 with industry := some industry1 }) with rng := rng' }
    else some s
  | _, _ => some s

/-- Modelled from the spec: src/starsim/factions/integrate.py dispatches
to invest_civilian_action, a name absent from the repository sources
(only a TYPE_CHECKING import mentions it); per spec section 4.4 the
investment consumes the stock and raises a cap on the target world, so
the wrapper applies invest_civilian there. -/
def invest_civilian_action (faction_id world_id : String) (s : UniverseState) :
    Option (Bool × UniverseState) :=
  let _ := faction_id
  match s.getWorld world_id with
  | some world => do
    let s' ← invest_civilian world s
    some (true, s')
  | none => some (false, s)

/-- Modelled from the spec: counterpart of invest_civilian_action for
invest_military_action, also absent from the repository sources. -/
def invest_military_action (faction_id world_id : String) (s : UniverseState) :
    Option (Bool × UniverseState) :=
  let _ := faction_id
  match s.getWorld world_id with
  | some world => do
    let s' ← invest_military world s
    some (true, s')
  | none => some (false, s)

/-- src/starsim/factions/integrate.py, lines 20-45 as written: the body
of the per-faction loop of apply_faction_actions — select an action and
dispatch on its type (a falsy target, None or the empty string, falls
through every branch and leaves the state untouched).  This body is
DEAD CODE at runtime: integrate.py imports select_action and every
dispatched action name only under `if TYPE_CHECKING:` (lines 4-9), so
none of them is bound when the body runs — see apply_one_faction. -/
def apply_one_faction_body (sqrtFn : Rat → Rat) (s : UniverseState) (faction : Faction) :
    Option UniverseState := do
  let action_plan ← select_action sqrtFn faction s
  let action_type := action_plan.atype
  match action_plan.target with
  | none => some s
  | some target_id =>
    if target_id = "" then some s
    else if action_type = "expand_influence" then
      some (expand_influence faction.id target_id s).2
    else if action_type = "reinforce" then
      some (reinforce faction.id target_id s).2
    else if action_type = "raid_lane" then
      some (raid_lane faction.id target_id s).2
    else if action_type = "patrol_lane" then
      some (patrol_lane faction.id target_id s).2
    else if action_type = "aid_world" then
      some (aid_world faction.id target_id s).2
    else if action_type = "invest_civilian" then do
      let (_, s') ← invest_civilian_action faction.id target_id s
      some s'
    else if action_type = "invest_military" then do
      let (_, s') ← invest_military_action faction.id target_id s
      some s'
    else some s

/-- src/starsim/factions/integrate.py: the per-faction loop body as it
actually executes.  Its first statement, `action_plan =
select_action(faction, state)` (line 22), references a name imported
only under `if TYPE_CHECKING:` (line 8), which Python does not execute
at runtime, so the body raises NameError before anything happens, for
every faction — an exception, modelled as none (apply_one_faction_body
above is what the source text describes but never reaches). -/
def apply_one_faction (sqrtFn : Rat → Rat) (s : UniverseState) (faction : Faction) :
    Option UniverseState :=
  let _ := sqrtFn
  let _ := s
  let _ := faction
  none

/-- src/starsim/factions/integrate.py: the loop over the faction
registry (iterated in insertion order, the state threaded through).
With no factions the body never runs and the loop returns normally;
with any faction the first iteration raises (none). -/
def apply_faction_actions_loop (sqrtFn : Rat → Rat) :
    List Faction → UniverseState → Option UniverseState
  | [], s => some s
  | f :: rest, s => do
    let s' ← apply_one_faction sqrtFn s f
    apply_faction_actions_loop sqrtFn rest s'

/-- src/starsim/factions/integrate.py: apply_faction_actions(state). -/
def apply_faction_actions (sqrtFn : Rat → Rat) (s : UniverseState) :
    Option UniverseState :=
  apply_faction_actions_loop sqrtFn s.factions s

/-- src/starsim/events/generator.py evaluate_event_conditions: whether
one condition matches the world (an unknown condition type never
matches; a lane_hazard condition matches when some lane incident to the
world lies in the band). -/
def condition_satisfied (condition : EventCondition) (world : World)
    (s : UniverseState) : Bool :=
  if condition.ctype = "world_unrest" then
    condition.minB ≤ world.unrest ∧ world.unrest ≤ condition.maxB
  else if condition.ctype = "world_scarcity" then
    condition.minB ≤ world.scarcity ∧ world.scarcity ≤ condition.maxB
  else if condition.ctype = "world_tag" then
    condition.tag ∈ world.tags
  else if condition.ctype = "world_tech" then
    condition.minB ≤ world.tech ∧ world.tech ≤ condition.maxB
  else if condition.ctype = "lane_hazard" then
    (s.lanes_from world.id).any
      (fun lane => condition.minB ≤ lane.hazard ∧ lane.hazard ≤ condition.maxB)
  else false

/-- src/starsim/events/generator.py: evaluate_event_conditions — the
running multiplier starts at 1.0 and is multiplied by the condition's
weight_multiplier for every satisfied condition (an unsatisfied condition
contributes no factor). -/
def evaluate_event_conditions (event_def : EventDef) (world : World)
    (s : UniverseState) : Rat :=
  event_def.conditions.foldl
    (fun multiplier condition =>
      if condition_satisfied condition world s then
        qmul multiplier condition.weight_multiplier
      else multiplier)
    1

/-- src/starsim/events/generator.py generate_events: the pool of
(event, world, weight) entries, keeping only strictly positive final
weights, worlds outer loop and registry events inner loop, in order. -/
def possible_events_with_weights (s : UniverseState) :
    List (EventDef × String × Rat) :=
  s.worlds.foldl
    (fun acc world =>
      s.event_registry.all_events.foldl
        (fun acc2 event_def =>
          let weight_multiplier := evaluate_event_conditions event_def world s
          let final_weight := qmul event_def.base_weight weight_multiplier
          if 0 < final_weight then acc2 ++ [(event_def, world.id, final_weight)]
          else acc2)
        acc)
    []

/-- Cumulative sums of a weight list (itertools.accumulate). -/
def cum_weights : List Rat → Rat → List Rat
  | [], _ => []
  | w :: rest, acc =>
    let a := qadd acc w
    a :: cum_weights rest a

/-- bisect.bisect_right on a sorted list restricted to its prefix: the
number of prefix elements at most x. -/
def bisect_count (x : Rat) : List Rat → Nat
  | [] => 0
  | c :: rest => if c ≤ x then 1 + bisect_count x rest else 0

/-- random.Random.choices(population, weights, k) (stdlib, external
interface per spec section 6), per the library documentation: k
independent draws WITH replacement; each draw picks the bisection index
of random()*total among the cumulative weights (capped at the last
index).  The recursion below performs the k draws. -/
def pyChoicesWeighted_go {α : Type} (population : List α) (cum : List Rat)
    (total : Rat) (hi : Nat) : Nat → Rng → List α → Option (List α × Rng)
  | 0, r, acc => some (acc, r)
  | Nat.succ k, r, acc =>
    let (u, r') := r.random
    let i := bisect_count (qmul u total) (cum.take hi)
    match population.get? i with
    | some x => pyChoicesWeighted_go population cum total hi k r' (acc ++ [x])
    | none => none

/-- random.Random.choices(population, weights=..., k=...). -/
def pyChoicesWeighted {α : Type} (r : Rng) (population : List α)
    (weights : List Rat) (k : Nat) : Option (List α × Rng) :=
  if population.length = 0 ∨ weights.length ≠ population.length then none
  else
    let cum := cum_weights weights 0
    let total := cum.getLastD 0
    pyChoicesWeighted_go population cum total (population.length - 1) k r []

/-- src/starsim/events/generator.py: generate_events(state,
max_events_per_tick) — weighted random selection of up to
max_events_per_tick (event, world) pairs from the positive-weight pool;
the rng is threaded out alongside the selection. -/
def generate_events (s : UniverseState) (max_events_per_tick : Nat) :
    Option (List (EventDef × String) × Rng) :=
  let pool := possible_events_with_weights s
  match pool with
  | [] => some ([], s.rng)
  | _ :: _ =>
    let events_only := pool
    let weights := pool.map (fun t => t.2.2)
    if weights ≠ [] ∧ 0 < weights.foldl qadd 0 then do
      let (chosen, rng') ← pyChoicesWeighted s.rng events_only weights
        (min max_events_per_tick events_only.length)
      some (chosen.map (fun t => (t.1, t.2.1)), rng')
    else some ([], s.rng)

/-- random.Random.sample(population, k) (stdlib, external interface per
spec section 6).  Modelled from the spec: k draws without replacement,
each removing the drawn element; sampling more elements than the
population holds raises (none). -/
def pySample_go {α : Type} : Nat → Rng → List α → List α → Option (List α × Rng)
  | 0, r, _, acc => some (acc, r)
  | Nat.succ k, r, remaining, acc =>
    match remaining with
    | [] => none
    | _ :: _ =>
      let (u, r') := r.random
      let i := min (qfloor (qmul u (mkRat remaining.length 1))).toNat
        (remaining.length - 1)
      match remaining.get? i with
      | some x => pySample_go k r' (remaining.eraseIdx i) (acc ++ [x])
      | none => none

/-- random.Random.sample(population, k). -/
def pySample {α : Type} (r : Rng) (l : List α) (k : Nat) : Option (List α × Rng) :=
  if l.length < k then none else pySample_go k r l []

/-- src/starsim/events/effects.py: the per-target-world removal loop of
the remove_inventory_random_worlds effect. -/
def remove_from_random_worlds (cid : String) (qty : Rat) :
    List String → UniverseState → Option UniverseState
  | [], s => some s
  | tid :: rest, s => do
    let target_world ← s.getWorld tid
    match target_world.market with
    | some market => do
      let (inv', _) ← market.inventory.remove_clamped cid qty
      remove_from_random_worlds cid qty rest
        (s.setWorld { target_world with market := some { market with inventory := inv' } })
    | none => remove_from_random_worlds cid qty rest s

/-- src/starsim/events/effects.py change_lane_hazard: resolve the lane to
affect — the named one through lanes.get when the lane_id is truthy,
otherwise a random connected lane (none when the world has no lanes). -/
def resolve_effect_lane (effect : EventEffect) (world_id : String)
    (s : UniverseState) : Option (Option Lane × Rng) :=
  match effect.lane_id with
  | some lid =>
    if lid = "" then
      match s.lanes_from world_id with
      | [] => some (none, s.rng)
      | connected => do
        let (l, r') ← pyChoice s.rng connected
        some (some l, r')
    else some (s.getLane lid, s.rng)
  | none =>
    match s.lanes_from world_id with
    | [] => some (none, s.rng)
    | connected => do
      let (l, r') ← pyChoice s.rng connected
      some (some l, r')

/-- src/starsim/events/effects.py: apply_effect(effect, world, state).
The world argument of the Python function is the object looked up by id
in the worlds dict; here the lookup is repeated, which is equivalent
because mutations go through the same keyed entry. -/
def apply_effect (effect : EventEffect) (world_id : String) (s : UniverseState) :
    Option UniverseState := do
  let world ← s.getWorld world_id
  if effect.etype = "change_stability" then
    some (s.setWorld { world with
      stability := max 0 (min 1 (qadd world.stability effect.delta)) })
  else if effect.etype = "change_prosperity" then
    some (s.setWorld { world with
      prosperity := max 0 (min 1 (qadd world.prosperity effect.delta)) })
  else if effect.etype = "change_unrest" then
    some (s.setWorld { world with
      unrest := max 0 (min 1 (qadd world.unrest effect.delta)) })
  else if effect.etype = "change_scarcity" then
    some (s.setWorld { world with
      scarcity := max 0 (min 1 (qadd world.scarcity effect.delta)) })
  else if effect.etype = "add_inventory" then
    match world.market with
    | some market => do
      let inv' ← market.inventory.add effect.commodity_id effect.quantity
      some (s.setWorld { world with market := some { market with inventory := inv' } })
    | none => some s
  else if effect.etype = "remove_inventory" then
    match world.market with
    | some market => do
      let (inv', _) ← market.inventory.remove_clamped effect.commodity_id effect.quantity
      some (s.setWorld { world with market := some { market with inventory := inv' } })
    | none => some s
  else if effect.etype = "change_lane_hazard" then do
    let (laneOpt, rng') ← resolve_effect_lane effect world_id s
    let s1 := { s with rng := rng' }
    match laneOpt with
    | some lane =>
      some (s1.setLane { lane with
        hazard := max 0 (min 1 (qadd lane.hazard effect.delta)) })
    | none => some s1
  else if effect.etype = "remove_inventory_random_worlds" then do
    let world_keys := s.worlds.map (fun w => w.id)
    let (target_world_ids, rng') ←
      pySample s.rng world_keys (min effect.num_worlds s.worlds.length)
    remove_from_random_worlds effect.commodity_id effect.quantity target_world_ids
      { s with rng := rng' }
  else some s

/-- A JSON-like value for the details map of an audit entry. -/
inductive AVal where
  | num : Rat → AVal
  | str : String → AVal
  | listV : List AVal → AVal
  | mapV : List (String × AVal) → AVal

/-- src/starsim/core/log.py: AuditEntry (the AuditLog is the ordered list
of entries). -/
structure AuditEntry where
  type : String
  tick : Int
  world_id : Option String := none
  faction_id : Option String := none
  delta : Rat := 0
  reason : Option String := none
  details : List (String × AVal) := []

/-- src/starsim/core/sim.py: TickReport. -/
structure TickReport where
  tick : Int
  log : List AuditEntry

/-- The details encoding of an event effect dict in the event.triggered
audit entry. -/
def EventEffect.toAVal (e : EventEffect) : AVal :=
  AVal.mapV [("type", AVal.str e.etype), ("delta", AVal.num e.delta),
    ("commodity_id", AVal.str e.commodity_id), ("quantity", AVal.num e.quantity),
    ("lane_id", match e.lane_id with | some l => AVal.str l | none => AVal.str ""),
    ("num_worlds", AVal.num (mkRat e.num_worlds 1))]

/-- src/starsim/core/sim.py step, stage 1 (economy.consumption): run
consume on every world holding population and market, logging an impact
entry when stability or unrest moved, and a no-op entry otherwise. -/
def consumption_stage : List String → UniverseState → List AuditEntry →
    Option (UniverseState × List AuditEntry)
  | [], s, log => some (s, log)
  | wid :: rest, s, log => do
    let world ← s.getWorld wid
    match world.population, world.market with
    | some _, some _ => do
      let initial_stability := world.stability
      let initial_unrest := world.unrest
      let world' ← consume world s.tick
      let s1 := s.setWorld world'
      let log1 :=
        if world'.stability ≠ initial_stability ∨ world'.unrest ≠ initial_unrest then
          log ++ [{
            type := "economy.consumption.impact", tick := s.tick,
            world_id := some world.id,
            reason := some ("Consumption impact: stability changed from "
              ++ fmt2 initial_stability ++ " to " ++ fmt2 world'.stability
              ++ ", unrest from " ++ fmt2 initial_unrest ++ " to " ++ fmt2 world'.unrest),
            details := [("old_stability", AVal.num initial_stability),
              ("new_stability", AVal.num world'.stability),
              ("old_unrest", AVal.num initial_unrest),
              ("new_unrest", AVal.num world'.unrest)] }]
        else log
      consumption_stage rest s1 log1
    | _, _ =>
      consumption_stage rest s (log ++ [{
        type := "economy.consumption",
        tick := s.tick, world_id := some world.id,
        reason := some "No population or market, no consumption." }])

/-- The key set union set(initial) | set(final) of the production diff (a
Python set; its iteration order is hash-dependent but fixed within a
process, modelled as first-seen order). -/
def dict_keys_union (a b : List (String × Rat)) : List String :=
  (a.map Prod.fst ++ b.map Prod.fst).eraseDups

/-- src/starsim/core/sim.py step, stage 2: the nonzero inventory deltas
produced in a world, in key order. -/
def produced_changes (initial final : List (String × Rat)) : List (String × AVal) :=
  (dict_keys_union initial final).foldl
    (fun acc c =>
      let v := qsub (agetD final c 0) (agetD initial c 0)
      if v ≠ 0 then acc ++ [(c, AVal.num v)] else acc)
    []

/-- src/starsim/core/sim.py step, stage 2 (economy.production): run
produce on every world holding industry and market, logging the nonzero
inventory changes when any, and a no-op entry for worlds without the
components (a producing world with an all-zero diff logs nothing). -/
def production_stage (reg : RecipeRegistry) : List String → UniverseState →
    List AuditEntry → Option (UniverseState × List AuditEntry)
  | [], s, log => some (s, log)
  | wid :: rest, s, log => do
    let world ← s.getWorld wid
    match world.industry, world.market with
    | some _, some market => do
      let initial_inventory := market.inventory.to_dict
      let world' ← produce world reg
      let s1 := s.setWorld world'
      let final_inventory :=
        match world'.market with
        | some m' => m'.inventory.to_dict
        | none => []
      let changes := produced_changes initial_inventory final_inventory
      let log1 :=
        if changes.isEmpty then log
        else
          log ++ [{
            type := "economy.production.output", tick := s.tick,
            world_id := some world.id,
            reason := some ("Production occurred in " ++ world.id),
            details := [("changes", AVal.mapV changes)] }]
      production_stage reg rest s1 log1
    | _, _ =>
      production_stage reg rest s (log ++ [{
        type := "economy.production",
        tick := s.tick, world_id := some world.id,
        reason := some "No industry or market, no production." }])

/-- src/starsim/core/sim.py step, stage 4 (economy.prices): the per-world
logging loop over the updated price map, one entry per changed price. -/
def price_log_loop (reg : CommodityRegistry) (initial_prices : List (String × Rat))
    (tick : Int) (wid : String) : List (String × Rat) → List AuditEntry →
    Option (List AuditEntry)
  | [], log => some log
  | (cid, new_price) :: rest, log => do
    let com ← reg.get cid
    let old_price := agetD initial_prices cid com.base_price
    let log1 :=
      if old_price ≠ new_price then
        log ++ [{
          type := "economy.prices.update", tick := tick,
          world_id := some wid, delta := qsub new_price old_price,
          reason := some ("Price of " ++ cid ++ " changed from " ++ fmt2 old_price
            ++ " to " ++ fmt2 new_price ++ "."),
          details := [("commodity_id", AVal.str cid),
            ("old_price", AVal.num old_price), ("new_price", AVal.num new_price)] }]
      else log
    price_log_loop reg initial_prices tick wid rest log1

/-- src/starsim/core/sim.py step, stage 4: update_prices on every world
with a market (logging each changed price), a no-op entry otherwise. -/
def prices_stage (reg : CommodityRegistry) : List String → UniverseState →
    List AuditEntry → Option (UniverseState × List AuditEntry)
  | [], s, log => some (s, log)
  | wid :: rest, s, log => do
    let world ← s.getWorld wid
    match world.market with
    | some market => do
      let initial_prices := market.prices
      let world' ← update_prices world reg
      let s1 := s.setWorld world'
      match world'.market with
      | some market' => do
        let log1 ← price_log_loop reg initial_prices s.tick world.id market'.prices log
        prices_stage reg rest s1 log1
      | none => none
    | none =>
      prices_stage reg rest s (log ++ [{
        type := "economy.prices",
        tick := s.tick, world_id := some world.id,
        reason := some "No market in world, no price update." }])

/-- src/starsim/core/sim.py step, stage 6: apply every effect of one
selected event in order, logging one event.triggered entry per effect. -/
def effects_loop (event_def : EventDef) (target_world_id : String) :
    List EventEffect → UniverseState → List AuditEntry →
    Option (UniverseState × List AuditEntry)
  | [], s, log => some (s, log)
  | effect :: rest, s, log => do
    let s1 ← apply_effect effect target_world_id s
    let log1 := log ++ [{
      type := "event.triggered", tick := s1.tick,
      world_id := some target_world_id,
      reason := some ("Event \x27" ++ event_def.id ++ "\x27 triggered in "
        ++ target_world_id ++ ". Effect: " ++ effect.etype ++ "."),
      details := [("event_id", AVal.str event_def.id),
        ("effect", effect.toAVal)] }]
    effects_loop event_def target_world_id rest s1 log1

/-- src/starsim/core/sim.py step, stage 6: loop over the selected
(event, world) pairs. -/
def events_apply_loop : List (EventDef × String) → UniverseState →
    List AuditEntry → Option (UniverseState × List AuditEntry)
  | [], s, log => some (s, log)
  | (event_def, target_world_id) :: rest, s, log => do
    let _ ← s.getWorld target_world_id
    let (s1, log1) ← effects_loop event_def target_world_id event_def.effects s log
    events_apply_loop rest s1 log1

/-- src/starsim/core/sim.py: step(state) — the fixed stage sequence
consumption, production, trade, prices, faction actions, events, then
the tick increment; returns the advanced state with the TickReport. -/
def step (sqrtFn : Rat → Rat) (s : UniverseState) :
    Option (UniverseState × TickReport) := do
  let (s1, log1) ← consumption_stage (s.worlds.map (fun w => w.id)) s []
  let (s2, log2) ← production_stage s1.recipe_registry (s1.worlds.map (fun w => w.id)) s1 log1
  let (s3, arrived_shipments) ← process_trade s2 true
  let log3a :=
    if s3.active_shipments ≠ [] then
      log2 ++ [{
        type := "economy.trade.new_shipments", tick := s3.tick,
        reason := some (toString s3.active_shipments.length ++ " new shipments en route."),
        details := [("shipments",
          AVal.listV (s3.active_shipments.map (fun sh => AVal.str sh.commodity_id)))] }]
    else log2
  let log3 :=
    if arrived_shipments ≠ [] then
      log3a ++ [{
        type := "economy.trade.arrivals", tick := s3.tick,
        reason := some (toString arrived_shipments.length ++ " shipments arrived."),
        details := [("arrivals",
          AVal.listV (arrived_shipments.map
            (fun sh => AVal.mapV [(sh.commodity_id, AVal.num sh.quantity)])))] }]
    else
      log3a ++ [{
        type := "economy.trade", tick := s3.tick,
        reason := some "No active trade or arrivals." }]
  let (s4, log4) ← prices_stage s3.commodity_registry (s3.worlds.map (fun w => w.id)) s3 log3
  let s5 ← apply_faction_actions sqrtFn s4
  let log5 := log4 ++ [{
    type := "factions.step", tick := s5.tick,
    reason := some "Faction actions applied." }]
  let (events_this_tick, rng1) ← generate_events s5 1
  let s5a := { s5 with rng := rng1 }
  let (s6, log6) ←
    match events_this_tick with
    | [] => some (s5a, log5 ++ [{
        type := "events.roll", tick := s5a.tick,
        reason := some "No events triggered this tick." }])
    | _ :: _ => events_apply_loop events_this_tick s5a log5
  let s7 := { s6 with tick := s6.tick + 1 }
  some (s7, { tick := s7.tick, log := log6 })

/-- The constructor-visible content of a UniverseState: everything the
caller hands over apart from the seed (the registries stand for the data
files loaded in __post_init__; identical initial content means identical
registries).  The rng is not part of the content — __post_init__ derives
it from the seed alone. -/
structure UniverseContent where
  tick : Int := 0
  worlds : List World := []
  lanes : List Lane := []
  commodity_registry : CommodityRegistry := ⟨[]⟩
  recipe_registry : RecipeRegistry := ⟨[]⟩
  event_registry : EventRegistry := ⟨[]⟩
  factions : List Faction := []
  active_shipments : List Shipment := []
  lane_capacity_tracker : LaneCapacity := ⟨[]⟩

/-- src/starsim/core/state.py: UniverseState.__post_init__ — construct a
state from a seed and initial content; the rng is the seeded source
(random.Random(seed), whose stream is the abstract mtStream applied to
the seed, with zero draws made). -/
def UniverseState.create (mtStream : Int → Nat → Rat) (seed : Int)
    (c : UniverseContent) : UniverseState :=
  { seed := seed, tick := c.tick, rng := ⟨mtStream seed, 0⟩,
    worlds := c.worlds, lanes := c.lanes,
    commodity_registry := c.commodity_registry,
    recipe_registry := c.recipe_registry,
    event_registry := c.event_registry, factions := c.factions,
    active_shipments := c.active_shipments,
    lane_capacity_tracker := c.lane_capacity_tracker }

/-- The audit-log sequence of N step calls (a run stops producing logs at
a raised exception, identically on identical states). -/
def audit_trace (sqrtFn : Rat → Rat) : Nat → UniverseState → List (List AuditEntry)
  | 0, _ => []
  | Nat.succ n, s =>
    match step sqrtFn s with
    | some (s', report) => report.log :: audit_trace sqrtFn n s'
    | none => []

theorem obind_eq_some {α β : Type} {x : Option α} {f : α → Option β} {b : β} :
    x >>= f = some b ↔ ∃ a, x = some a ∧ f a = some b := by
  cases x <;> simp

theorem obind_some {α β : Type} (a : α) (f : α → Option β) : (some a >>= f) = f a := rfl

theorem alookup_mem {α β : Type} [DecidableEq α] {k : α} {v : β} :
    ∀ {l : List (α × β)}, alookup k l = some v → (k, v) ∈ l := by
  intro l
  induction l with
  | nil => intro h; simp [alookup] at h
  | cons p rest ih =>
    obtain ⟨a, b⟩ := p
    intro h
    rw [alookup] at h
    by_cases hk : a = k
    · subst hk
      simp at h
      subst h
      exact List.mem_cons_self _ _
    · simp [hk] at h
      exact List.mem_cons_of_mem _ (ih h)

theorem alookup_aset_self {α β : Type} [DecidableEq α] (k : α) (v : β) :
    ∀ l : List (α × β), alookup k (aset k v l) = some v := by
  intro l
  induction l with
  | nil => simp [aset, alookup]
  | cons p rest ih =>
    obtain ⟨a, b⟩ := p
    rw [aset]
    by_cases hk : a = k
    · simp [hk, alookup]
    · simp [hk, alookup, ih]

theorem alookup_aset_ne {α β : Type} [DecidableEq α] {k k' : α} (v : β)
    (hne : k' ≠ k) : ∀ l : List (α × β), alookup k' (aset k v l) = alookup k' l := by
  intro l
  induction l with
  | nil => simp [aset, alookup, Ne.symm hne]
  | cons p rest ih =>
    obtain ⟨a, b⟩ := p
    by_cases hk : a = k
    · subst hk
      simp [aset, alookup, Ne.symm hne]
    · by_cases hk2 : a = k'
      · simp [aset, alookup, hk, hk2, hne, Ne.symm hne]
      · simp [aset, alookup, hk, hk2, ih]

theorem mem_aset {α β : Type} [DecidableEq α] {k : α} {v : β} {p : α × β} :
    ∀ {l : List (α × β)}, p ∈ aset k v l → p = (k, v) ∨ p ∈ l := by
  intro l
  induction l with
  | nil => intro h; simp [aset] at h; left; exact h
  | cons q rest ih =>
    obtain ⟨a, b⟩ := q
    intro h
    rw [aset] at h
    by_cases hk : a = k
    · simp [hk] at h
      rcases h with h | h
      · left; simp [h]
      · right; exact List.mem_cons_of_mem _ h
    · simp [hk] at h
      rcases h with h | h
      · right; exact List.mem_cons.mpr (Or.inl (by simp [h]))
      · rcases ih h with h2 | h2
        · left; exact h2
        · right; exact List.mem_cons_of_mem _ h2

theorem mem_aremove {α β : Type} [DecidableEq α] {k : α} {p : α × β} :
    ∀ {l : List (α × β)}, p ∈ aremove k l → p ∈ l := by
  intro l
  induction l with
  | nil => intro h; simp [aremove] at h
  | cons q rest ih =>
    obtain ⟨a, b⟩ := q
    intro h
    rw [aremove] at h
    by_cases hk : a = k
    · simp [hk] at h
      exact List.mem_cons_of_mem _ h
    · simp [hk] at h
      rcases h with h | h
      · exact List.mem_cons.mpr (Or.inl (by simp [h]))
      · exact List.mem_cons_of_mem _ (ih h)

theorem alookup_aremove_self {α β : Type} [DecidableEq α] {k : α} :
    ∀ {l : List (α × β)}, (l.map Prod.fst).Nodup → alookup k (aremove k l) = none := by
  intro l
  induction l with
  | nil => intro _; simp [aremove, alookup]
  | cons q rest ih =>
    obtain ⟨a, b⟩ := q
    intro hnd
    rw [List.map_cons, List.nodup_cons] at hnd
    by_cases hk : a = k
    · subst hk
      rw [aremove, if_pos rfl]
      cases ha : alookup a rest with
      | none => rfl
      | some v =>
        exact absurd (List.mem_map_of_mem Prod.fst (alookup_mem ha)) hnd.1
    · rw [aremove, if_neg hk, alookup]
      simp [hk, ih hnd.2]

theorem alookup_aremove_ne {α β : Type} [DecidableEq α] {k k' : α} (hne : k' ≠ k) :
    ∀ l : List (α × β), alookup k' (aremove k l) = alookup k' l := by
  intro l
  induction l with
  | nil => simp [aremove]
  | cons q rest ih =>
    obtain ⟨a, b⟩ := q
    by_cases hk : a = k
    · subst hk
      rw [aremove, if_pos rfl, alookup]
      simp [Ne.symm hne]
    · rw [aremove, if_neg hk, alookup, alookup]
      by_cases hk2 : a = k'
      · simp [hk2]
      · simp [hk2, ih]

theorem max_by_val_eq_or_mem (best : String × Rat) :
    ∀ l : List (String × Rat), max_by_val best l = best ∨ max_by_val best l ∈ l := by
  intro l
  induction l generalizing best with
  | nil => left; rfl
  | cons q rest ih =>
    obtain ⟨a, b⟩ := q
    rw [max_by_val]
    by_cases h : best.2 < b
    · simp only [if_pos h]
      rcases ih (a, b) with h2 | h2
      · right; exact List.mem_cons.mpr (Or.inl h2)
      · right; exact List.mem_cons_of_mem _ h2
    · simp only [if_neg h]
      rcases ih best with h2 | h2
      · left; exact h2
      · right; exact List.mem_cons_of_mem _ h2

theorem max_by_val_ge_best (best : String × Rat) :
    ∀ l : List (String × Rat), best.2 ≤ (max_by_val best l).2 := by
  intro l
  induction l generalizing best with
  | nil => exact le_refl _
  | cons q rest ih =>
    obtain ⟨a, b⟩ := q
    rw [max_by_val]
    by_cases h : best.2 < b
    · simp only [if_pos h]
      exact le_of_lt (lt_of_lt_of_le h (ih (a, b)))
    · simp only [if_neg h]
      exact ih best

theorem max_by_val_ge_mem (best : String × Rat) {p : String × Rat} :
    ∀ {l : List (String × Rat)}, p ∈ l → p.2 ≤ (max_by_val best l).2 := by
  intro l
  induction l generalizing best with
  | nil => intro h; simp at h
  | cons q rest ih =>
    obtain ⟨a, b⟩ := q
    intro h
    rw [max_by_val]
    rcases List.mem_cons.mp h with h1 | h1
    · subst h1
      by_cases h2 : best.2 < b
      · simp only [if_pos h2]
        exact max_by_val_ge_best (a, b) rest
      · simp only [if_neg h2]
        exact le_trans (not_lt.mp h2) (max_by_val_ge_best best rest)
    · by_cases h2 : best.2 < b
      · simp only [if_pos h2]
        exact ih (a, b) h1
      · simp only [if_neg h2]
        exact ih best h1

theorem alookup_of_nodup_mem {α β : Type} [DecidableEq α] {k : α} {v : β} :
    ∀ {l : List (α × β)}, (l.map Prod.fst).Nodup → (k, v) ∈ l →
      alookup k l = some v := by
  intro l
  induction l with
  | nil => intro _ h; simp at h
  | cons p rest ih =>
    obtain ⟨a, b⟩ := p
    intro hnd hm
    rw [List.map_cons, List.nodup_cons] at hnd
    rcases List.mem_cons.mp hm with h | h
    · obtain ⟨h1, h2⟩ := Prod.mk.injEq .. ▸ h.symm
      rw [alookup, if_pos h1]
      rw [h2]
    · rw [alookup]
      by_cases hk : a = k
      · subst hk
        exact absurd (List.mem_map_of_mem Prod.fst h) hnd.1
      · simp only [if_neg hk]
        exact ih hnd.2 h

/-- A faction holds (weakly) maximal influence in a faction-state: it is
present in the influence map and no faction has strictly more. -/
def IsMaximalInfluence (fs : WorldFactionState) (f : String) : Prop :=
  ∃ v, alookup f fs.influence = some v ∧ ∀ p ∈ fs.influence, p.2 ≤ v

/-- The leader resolve_control computes: the first faction attaining the
maximal influence in influence-map order (none when the map is empty). -/
def influence_leader (fs : WorldFactionState) : Option String :=
  match fs.influence with
  | [] => none
  | e :: rest => some (max_by_val e rest).1

theorem influence_leader_spec (fs : WorldFactionState) {f : String}
    (hnd : (fs.influence.map Prod.fst).Nodup)
    (h : influence_leader fs = some f) :
    ∃ v, alookup f fs.influence = some v ∧ ∀ p ∈ fs.influence, p.2 ≤ v := by
  unfold influence_leader at h
  cases hi : fs.influence with
  | nil => rw [hi] at h; simp at h
  | cons e rest =>
    rw [hi] at h
    simp at h
    refine ⟨(max_by_val e rest).2, ?_, ?_⟩
    · rw [← h]
      apply alookup_of_nodup_mem (hi ▸ hnd)
      rcases max_by_val_eq_or_mem e rest with h2 | h2
      · rw [h2]; exact List.mem_cons_self _ _
      · exact List.mem_cons_of_mem _ h2
    · intro p hp
      rcases List.mem_cons.mp hp with h2 | h2
      · rw [h2]; exact max_by_val_ge_best e rest
      · exact max_by_val_ge_mem e h2

/-- C7 (amended): resolve_control changes nothing but the control field,
and the control transitions are exactly: an empty influence map clears
control; from uncontrolled, the leader (the first faction attaining the
maximal influence, in influence-map order) gains control only when its
influence reaches the gain threshold — so any gainer holds maximal
influence at or above the threshold; an incumbent that is itself the
leader retains control unconditionally, and in particular an incumbent
with strictly maximal influence always retains control; control flips
from X to a different Y only when Y is maximal with influence at or above
the gain threshold while X has fallen below the loss threshold; and with
a non-empty influence map an incumbent never falls back to no control.
(The claim as frozen asserts unconditional retention for any incumbent
with weakly maximal influence; a tie broken against the incumbent can
flip control when the thresholds satisfy gain at most loss, see the
counterexample C7_counterexample.) -/
theorem C7_resolve_control_hysteresis (fs : WorldFactionState)
    (hnd : (fs.influence.map Prod.fst).Nodup) :
    (fs.resolve_control.influence = fs.influence ∧
      fs.resolve_control.garrison = fs.garrison ∧
      fs.resolve_control.control_threshold_gain = fs.control_threshold_gain ∧
      fs.resolve_control.control_threshold_loss = fs.control_threshold_loss) ∧
    (fs.influence = [] → fs.resolve_control.control = none) ∧
    (∀ f, fs.control = none → fs.resolve_control.control = some f →
      IsMaximalInfluence fs f ∧ fs.control_threshold_gain ≤ agetD fs.influence f 0) ∧
    (∀ x, fs.control = some x → influence_leader fs = some x →
      fs.resolve_control.control = some x) ∧
    (∀ x vx, fs.control = some x → alookup x fs.influence = some vx →
      (∀ p ∈ fs.influence, p.1 ≠ x → p.2 < vx) →
      fs.resolve_control.control = some x) ∧
    (∀ x y, fs.control = some x → fs.resolve_control.control = some y → y ≠ x →
      IsMaximalInfluence fs y ∧ fs.control_threshold_gain ≤ agetD fs.influence y 0 ∧
        agetD fs.influence x 0 < fs.control_threshold_loss) ∧
    (∀ x, fs.control = some x → fs.resolve_control.control = none →
      fs.influence = []) := by
  have hlead_max : ∀ f, influence_leader fs = some f → IsMaximalInfluence fs f :=
    fun f hf => influence_leader_spec fs hnd hf
  obtain ⟨infl, gar, ctl, gain, loss⟩ := fs
  cases infl with
  | nil =>
    refine ⟨⟨rfl, rfl, rfl, rfl⟩, fun _ => rfl, ?_, ?_, ?_, ?_, ?_⟩
    · intro f _ hres
      simp [WorldFactionState.resolve_control] at hres
    · intro x hx hlead
      simp [influence_leader] at hlead
    · intro x vx _ hvx
      simp [alookup] at hvx
    · intro x y _ hres
      simp [WorldFactionState.resolve_control] at hres
    · intro _ _ _
      rfl
  | cons e rest =>
    have hlead_eq : influence_leader ⟨e :: rest, gar, ctl, gain, loss⟩ =
        some (max_by_val e rest).1 := rfl
    have hdom_mem : ((max_by_val e rest).1, (max_by_val e rest).2) ∈ e :: rest := by
      rcases max_by_val_eq_or_mem e rest with h2 | h2
      · rw [h2]; exact List.mem_cons_self _ _
      · exact List.mem_cons_of_mem _ h2
    cases ctl with
    | none =>
      by_cases hcond : gain ≤ agetD (e :: rest) (max_by_val e rest).1 0
      · have hres : WorldFactionState.resolve_control ⟨e :: rest, gar, none, gain, loss⟩ =
            ⟨e :: rest, gar, some (max_by_val e rest).1, gain, loss⟩ := by
          simp [WorldFactionState.resolve_control, hcond]
        rw [hres]
        refine ⟨⟨rfl, rfl, rfl, rfl⟩, by simp, ?_, ?_, ?_, ?_, ?_⟩
        · intro f _ hf
          simp at hf
          subst hf
          exact ⟨hlead_max _ hlead_eq, hcond⟩
        · intro x hx; simp at hx
        · intro x vx hx; simp at hx
        · intro x y hx; simp at hx
        · intro x hx; simp at hx
      · have hres : WorldFactionState.resolve_control ⟨e :: rest, gar, none, gain, loss⟩ =
            ⟨e :: rest, gar, none, gain, loss⟩ := by
          simp [WorldFactionState.resolve_control, hcond]
        rw [hres]
        refine ⟨⟨rfl, rfl, rfl, rfl⟩, by simp, ?_, ?_, ?_, ?_, ?_⟩
        · intro f _ hf; simp at hf
        · intro x hx; simp at hx
        · intro x vx hx; simp at hx
        · intro x y hx; simp at hx
        · intro x hx; simp at hx
    | some c =>
      by_cases hceq : c = (max_by_val e rest).1
      · have hres : WorldFactionState.resolve_control ⟨e :: rest, gar, some c, gain, loss⟩ =
            ⟨e :: rest, gar, some c, gain, loss⟩ := by
          simp [WorldFactionState.resolve_control, hceq]
        rw [hres]
        refine ⟨⟨rfl, rfl, rfl, rfl⟩, by simp, ?_, ?_, ?_, ?_, ?_⟩
        · intro f hf; simp at hf
        · intro x hx hlead; simp at hx; rw [← hx]
        · intro x vx hx _ _; simp at hx; rw [← hx]
        · intro x y hx hy hne
          simp at hx hy
          exact absurd (hy.symm.trans hx) hne
        · intro x _ hx; simp at hx
      · by_cases hcond : gain ≤ agetD (e :: rest) (max_by_val e rest).1 0 ∧
            agetD (e :: rest) c 0 < loss
        · have hres : WorldFactionState.resolve_control ⟨e :: rest, gar, some c, gain, loss⟩ =
              ⟨e :: rest, gar, some (max_by_val e rest).1, gain, loss⟩ := by
            simp only [WorldFactionState.resolve_control]
            rw [if_neg hceq, if_pos hcond]
          rw [hres]
          refine ⟨⟨rfl, rfl, rfl, rfl⟩, by simp, ?_, ?_, ?_, ?_, ?_⟩
          · intro f hf; simp at hf
          · intro x hx hlead
            simp at hx
            rw [hlead_eq] at hlead
            simp at hlead
            have hlx : (max_by_val e rest).1 = c := hlead.trans hx.symm
            simp [hlx, hx]
          · intro x vx hx hvx hstrict
            simp at hx
            have hdom_eq : (max_by_val e rest).1 = x := by
              by_contra hne2
              have h1 : (max_by_val e rest).2 < vx := hstrict _ hdom_mem hne2
              have h2 : vx ≤ (max_by_val e rest).2 := by
                rcases List.mem_cons.mp (alookup_mem hvx) with h3 | h3
                · rw [← h3]; exact max_by_val_ge_best _ rest
                · exact max_by_val_ge_mem e h3
              exact absurd h1 (not_lt.mpr h2)
            simp [hdom_eq, hx]
          · intro x y hx hy hne
            simp at hx hy
            subst hx
            subst hy
            exact ⟨hlead_max _ hlead_eq, hcond.1, hcond.2⟩
          · intro x _ hx; simp at hx
        · have hres : WorldFactionState.resolve_control ⟨e :: rest, gar, some c, gain, loss⟩ =
              ⟨e :: rest, gar, some c, gain, loss⟩ := by
            simp only [WorldFactionState.resolve_control]
            rw [if_neg hceq, if_neg hcond]
          rw [hres]
          refine ⟨⟨rfl, rfl, rfl, rfl⟩, by simp, ?_, ?_, ?_, ?_, ?_⟩
          · intro f hf; simp at hf
          · intro x hx hlead; simp at hx; rw [← hx]
          · intro x vx hx _ _; simp at hx; rw [← hx]
          · intro x y hx hy hne
            simp at hx hy
            exact absurd (hy.symm.trans hx) hne
          · intro x _ hx; simp at hx

/-- A faction state with a two-way tie at the top: X controls the world
and holds maximal influence (tied with Y at 0.4), the gain threshold is
0.3 and the loss threshold 0.5. -/
def C7_cex_fs : WorldFactionState :=
  { influence := [("Y", mkRat 2 5), ("X", mkRat 2 5)],
    garrison := [],
    control := some "X",
    control_threshold_gain := mkRat 3 10,
    control_threshold_loss := mkRat 1 2 }

/-- C7 counterexample: the claim asserts an incumbent controller that
still has maximal influence retains control unconditionally; in this
concrete state X controls, X has maximal influence (a tie with Y), yet
resolve_control hands control to Y — refuting the claim as stated. -/
theorem C7_counterexample :
    C7_cex_fs.control = some "X" ∧
    IsMaximalInfluence C7_cex_fs "X" ∧
    C7_cex_fs.resolve_control.control = some "Y" ∧
    C7_cex_fs.resolve_control.control ≠ C7_cex_fs.control := by
  refine ⟨rfl, ⟨mkRat 2 5, by decide, by decide⟩, by decide, by decide⟩

/-- A simple faction state: A controls and is the sole influence
holder. -/
def C7_wit_fs : WorldFactionState :=
  { influence := [("A", mkRat 4 5)],
    garrison := [],
    control := some "A",
    control_threshold_gain := mkRat 7 10,
    control_threshold_loss := mkRat 4 10 }

theorem C7_resolve_control_hysteresis_witness :
    ((C7_wit_fs.influence.map Prod.fst).Nodup ∧
      C7_wit_fs.control = some "A" ∧ influence_leader C7_wit_fs = some "A") ∧
    C7_wit_fs.resolve_control.control = some "A" :=
  ⟨⟨by decide, rfl, rfl⟩,
    (C7_resolve_control_hysteresis C7_wit_fs (by decide)).2.2.2.1 "A" rfl rfl⟩

/-- The per-commodity price update of spec section 4.1: previous price
times (1 + (1 - ratio) * reaction factor), with ratio = current/target
(10 when the target is not positive), clamped into the base-price band.
This is the value the update_prices loop stores. -/
def price_update_formula (m : Market) (com : Commodity) (cid : String)
    (target_qty : Rat) : Rat :=
  let current_qty := m.inventory.get cid
  let current_price := agetD m.prices cid com.base_price
  let r := if (0 : Rat) < target_qty then qdiv current_qty target_qty else (10 : Rat)
  max (qmul com.base_price m.min_price_multiplier)
    (min (qmul com.base_price m.max_price_multiplier)
      (qmul current_price (qadd 1 (qmul (qsub 1 r) m.price_change_factor))))

theorem price_update_formula_congr (m : Market) (com : Commodity) (cid cid' : String)
    (tq : Rat) (v : Rat) (hne : cid ≠ cid') :
    price_update_formula { m with prices := aset cid' v m.prices } com cid tq =
    price_update_formula m com cid tq := by
  unfold price_update_formula
  simp only [Inventory.get, Inventory.getD, agetD]
  rw [alookup_aset_ne v hne]

theorem update_prices_loop_spec (reg : CommodityRegistry) :
    ∀ (ts : List (String × Rat)) (m m' : Market),
      (ts.map Prod.fst).Nodup →
      update_prices_loop reg ts m = some m' →
      (∀ p ∈ ts, ∃ com, reg.get p.1 = some com ∧
        alookup p.1 m'.prices = some (price_update_formula m com p.1 p.2)) ∧
      (∀ cid, cid ∉ ts.map Prod.fst → alookup cid m'.prices = alookup cid m.prices) ∧
      m'.inventory = m.inventory ∧ m'.targets = m.targets ∧
      m'.price_change_factor = m.price_change_factor ∧
      m'.min_price_multiplier = m.min_price_multiplier ∧
      m'.max_price_multiplier = m.max_price_multiplier := by
  intro ts
  induction ts with
  | nil =>
    intro m m' _ h
    rw [update_prices_loop] at h
    simp at h
    subst h
    exact ⟨by simp, fun _ _ => rfl, rfl, rfl, rfl, rfl, rfl⟩
  | cons p rest ih =>
    obtain ⟨cid, tq⟩ := p
    intro m m' hnd h
    rw [List.map_cons, List.nodup_cons] at hnd
    rw [update_prices_loop] at h
    cases hcom : reg.get cid with
    | none => rw [hcom] at h; simp at h
    | some com =>
      rw [hcom] at h
      simp only [Option.some_bind] at h
      set m1 : Market :=
        { m with prices := aset cid (price_update_formula m com cid tq) m.prices }
        with hm1
      have h' : update_prices_loop reg rest m1 = some m' := by
        rw [← h]
        congr 1
      obtain ⟨ihead, irest, hinv, htg, hf, hmn, hmx⟩ := ih m1 m' hnd.2 h'
      refine ⟨?_, ?_, ?_, ?_, ?_, ?_, ?_⟩
      · intro q hq
        rcases List.mem_cons.mp hq with h1 | h1
        · subst h1
          refine ⟨com, hcom, ?_⟩
          rw [irest cid hnd.1, hm1]
          exact alookup_aset_self cid _ m.prices
        · obtain ⟨com', hcom', hlook⟩ := ihead q h1
          refine ⟨com', hcom', ?_⟩
          rw [hlook, hm1]
          have hqne : q.1 ≠ cid := by
            intro hh
            apply hnd.1
            rw [← hh]
            exact List.mem_map.mpr ⟨q, h1, rfl⟩
          exact congrArg some (price_update_formula_congr m com' q.1 cid q.2 _ hqne)
      · intro cid' hcid'
        simp only [List.map_cons, List.mem_cons, not_or] at hcid'
        rw [irest cid' hcid'.2, hm1]
        exact alookup_aset_ne _ hcid'.1 m.prices
      · rw [hinv, hm1]
      · rw [htg, hm1]
      · rw [hf, hm1]
      · rw [hmn, hm1]
      · rw [hmx, hm1]

theorem market_price_defaults_body_preserves (acc : Market) (com : Commodity) :
    (market_price_defaults_body acc com).inventory = acc.inventory ∧
    (market_price_defaults_body acc com).price_change_factor = acc.price_change_factor ∧
    (market_price_defaults_body acc com).min_price_multiplier = acc.min_price_multiplier ∧
    (market_price_defaults_body acc com).max_price_multiplier = acc.max_price_multiplier := by
  refine ⟨?_, ?_, ?_, ?_⟩ <;>
    (unfold market_price_defaults_body; split <;> (dsimp only; split <;> rfl))

theorem market_price_defaults_preserves (reg : CommodityRegistry) (m : Market) :
    (market_price_defaults reg m).inventory = m.inventory ∧
    (market_price_defaults reg m).price_change_factor = m.price_change_factor ∧
    (market_price_defaults reg m).min_price_multiplier = m.min_price_multiplier ∧
    (market_price_defaults reg m).max_price_multiplier = m.max_price_multiplier := by
  unfold market_price_defaults
  induction reg.commodities generalizing m with
  | nil => exact ⟨rfl, rfl, rfl, rfl⟩
  | cons c cs ih =>
    rw [List.foldl_cons]
    obtain ⟨h1, h2, h3, h4⟩ := ih (market_price_defaults_body m c)
    obtain ⟨g1, g2, g3, g4⟩ := market_price_defaults_body_preserves m c
    exact ⟨h1.trans g1, h2.trans g2, h3.trans g3, h4.trans g4⟩

/-- C3: after update_prices, for every commodity in the (defaults-
completed) target map, the stored price equals the previous price times
(1 + (1 - ratio) * reaction_factor) — ratio being current/target, or the
large constant 10 when the target is not positive — clamped into
[base_price * min_multiplier, base_price * max_multiplier]; consequently,
whenever the base price is non-negative and the multipliers are ordered,
every such price lies within those bounds. -/
theorem C3_update_prices_formula_and_bounds (world world' : World)
    (reg : CommodityRegistry) (m0 : Market) (hm : world.market = some m0)
    (hnd : ((market_price_defaults reg m0).targets.map Prod.fst).Nodup)
    (h : update_prices world reg = some world') :
    ∃ m2, world'.market = some m2 ∧
      ∀ p ∈ (market_price_defaults reg m0).targets,
        ∃ com, reg.get p.1 = some com ∧
          alookup p.1 m2.prices =
            some (price_update_formula (market_price_defaults reg m0) com p.1 p.2) ∧
          (0 ≤ com.base_price →
            m0.min_price_multiplier ≤ m0.max_price_multiplier →
            qmul com.base_price m0.min_price_multiplier ≤
              price_update_formula (market_price_defaults reg m0) com p.1 p.2 ∧
            price_update_formula (market_price_defaults reg m0) com p.1 p.2 ≤
              qmul com.base_price m0.max_price_multiplier) := by
  unfold update_prices at h
  rw [hm] at h
  simp only [obind_eq_some] at h
  obtain ⟨m2, hloop, hw'⟩ := h
  simp at hw'
  refine ⟨m2, by rw [← hw'], ?_⟩
  obtain ⟨ihead, _, _⟩ := update_prices_loop_spec reg
    (market_price_defaults reg m0).targets (market_price_defaults reg m0) m2 hnd hloop
  intro p hp
  obtain ⟨com, hcom, hlook⟩ := ihead p hp
  refine ⟨com, hcom, hlook, ?_⟩
  intro hbase hmult
  obtain ⟨_, _, hmn, hmx⟩ := market_price_defaults_preserves reg m0
  have hlohi : qmul com.base_price m0.min_price_multiplier ≤
      qmul com.base_price m0.max_price_multiplier := by
    rw [qmul_eq, qmul_eq]
    exact mul_le_mul_of_nonneg_left hmult hbase
  unfold price_update_formula
  rw [hmn, hmx]
  constructor
  · exact le_max_left _ _
  · exact max_le hlohi (min_le_left _ _)

/-- A one-commodity registry for concrete price-update runs. -/
def C3_wit_reg : CommodityRegistry :=
  ⟨[{ id := "food", name := "Food", base_price := 10 }]⟩

/-- A market holding 5 food against a target of 10, priced at 8. -/
def C3_wit_market : Market :=
  { inventory := ⟨[("food", 5)]⟩, prices := [("food", 8)], targets := [("food", 10)] }

/-- A world carrying the concrete market. -/
def C3_wit_world : World :=
  { id := "w1", name := "W1", market := some C3_wit_market }

/-- The world after update_prices: scarcity (ratio 1/2) raises the food
price from 8 to 8 * (1 + (1 - 1/2) * 0.1) = 42/5, inside [5, 20]. -/
def C3_wit_world' : World :=
  { C3_wit_world with
    market := some { C3_wit_market with prices := [("food", mkRat 42 5)] } }

example : update_prices C3_wit_world C3_wit_reg = some C3_wit_world' := by decide

theorem C3_update_prices_formula_and_bounds_witness :
    ∃ m2, C3_wit_world'.market = some m2 ∧
      ∀ p ∈ (market_price_defaults C3_wit_reg C3_wit_market).targets,
        ∃ com, C3_wit_reg.get p.1 = some com ∧
          alookup p.1 m2.prices =
            some (price_update_formula (market_price_defaults C3_wit_reg C3_wit_market)
              com p.1 p.2) ∧
          (0 ≤ com.base_price →
            C3_wit_market.min_price_multiplier ≤ C3_wit_market.max_price_multiplier →
            qmul com.base_price C3_wit_market.min_price_multiplier ≤
              price_update_formula (market_price_defaults C3_wit_reg C3_wit_market)
                com p.1 p.2 ∧
            price_update_formula (market_price_defaults C3_wit_reg C3_wit_market)
                com p.1 p.2 ≤
              qmul com.base_price C3_wit_market.max_price_multiplier) :=
  C3_update_prices_formula_and_bounds C3_wit_world C3_wit_world' C3_wit_reg
    C3_wit_market rfl (by decide) (by decide)

theorem produce_inputs_bound_spec (inv : Inventory) :
    ∀ (inputs : List (String × Rat)) (acc : Option Rat) (b : Rat),
      produce_inputs_bound inv inputs acc = some b →
      ((acc = some b ∨ ∃ p ∈ inputs, 0 < p.2 ∧ b = qdiv (inv.get p.1) p.2) ∧
        (∀ a, acc = some a → b ≤ a) ∧
        (∀ p ∈ inputs, 0 < p.2 → b ≤ qdiv (inv.get p.1) p.2)) := by
  intro inputs
  induction inputs with
  | nil =>
    intro acc b h
    rw [produce_inputs_bound] at h
    refine ⟨Or.inl h, ?_, by simp⟩
    intro a ha
    rw [h] at ha
    simp at ha
    rw [ha]
  | cons p rest ih =>
    obtain ⟨iid, q⟩ := p
    intro acc b h
    rw [produce_inputs_bound] at h
    by_cases hq : (0 : Rat) < q
    · rw [if_pos hq] at h
      cases acc with
      | none =>
        dsimp only at h
        obtain ⟨iatt, ile, irest⟩ := ih _ b h
        have hle_new : b ≤ qdiv (inv.get iid) q := ile _ rfl
        refine ⟨?_, ?_, ?_⟩
        · rcases iatt with h1 | h1
          · simp at h1
            exact Or.inr ⟨(iid, q), List.mem_cons_self _ _, hq, h1.symm⟩
          · obtain ⟨pp, hpp, hpos, hval⟩ := h1
            exact Or.inr ⟨pp, List.mem_cons_of_mem _ hpp, hpos, hval⟩
        · intro a ha
          simp at ha
        · intro pp hpp hpos
          rcases List.mem_cons.mp hpp with h1 | h1
          · rw [h1]
            exact hle_new
          · exact irest pp h1 hpos
      | some m =>
        dsimp only at h
        obtain ⟨iatt, ile, irest⟩ := ih _ b h
        have hle_new : b ≤ min m (qdiv (inv.get iid) q) := ile _ rfl
        refine ⟨?_, ?_, ?_⟩
        · rcases iatt with h1 | h1
          · simp at h1
            rcases le_total m (qdiv (inv.get iid) q) with hmd | hmd
            · rw [min_eq_left hmd] at h1
              exact Or.inl (by rw [h1])
            · rw [min_eq_right hmd] at h1
              exact Or.inr ⟨(iid, q), List.mem_cons_self _ _, hq, h1.symm⟩
          · obtain ⟨pp, hpp, hpos, hval⟩ := h1
            exact Or.inr ⟨pp, List.mem_cons_of_mem _ hpp, hpos, hval⟩
        · intro a ha
          simp at ha
          rw [← ha]
          exact le_trans hle_new (min_le_left _ _)
        · intro pp hpp hpos
          rcases List.mem_cons.mp hpp with h1 | h1
          · rw [h1]
            exact le_trans hle_new (min_le_right _ _)
          · exact irest pp h1 hpos
    · rw [if_neg hq] at h
      obtain ⟨iatt, ile, irest⟩ := ih _ b h
      refine ⟨?_, ile, ?_⟩
      · rcases iatt with h1 | h1
        · exact Or.inl h1
        · obtain ⟨pp, hpp, hpos, hval⟩ := h1
          exact Or.inr ⟨pp, List.mem_cons_of_mem _ hpp, hpos, hval⟩
      · intro pp hpp hpos
        rcases List.mem_cons.mp hpp with h1 | h1
        · rw [h1] at hpos
          exact absurd hpos hq
        · exact irest pp h1 hpos

theorem produce_inputs_bound_isSome (inv : Inventory) :
    ∀ (inputs : List (String × Rat)) (x : Rat),
      ∃ b, produce_inputs_bound inv inputs (some x) = some b := by
  intro inputs
  induction inputs with
  | nil => intro x; exact ⟨x, rfl⟩
  | cons p rest ih =>
    obtain ⟨iid, q⟩ := p
    intro x
    rw [produce_inputs_bound]
    by_cases hq : (0 : Rat) < q
    · rw [if_pos hq]
      exact ih _
    · rw [if_neg hq]
      exact ih x

theorem produce_inputs_bound_none_iff (inv : Inventory) :
    ∀ (inputs : List (String × Rat)),
      produce_inputs_bound inv inputs none = none ↔ ∀ p ∈ inputs, ¬ (0 : Rat) < p.2 := by
  intro inputs
  induction inputs with
  | nil => simp [produce_inputs_bound]
  | cons p rest ih =>
    obtain ⟨iid, q⟩ := p
    rw [produce_inputs_bound]
    by_cases hq : (0 : Rat) < q
    · rw [if_pos hq]
      obtain ⟨b, hb⟩ := produce_inputs_bound_isSome inv rest (qdiv (inv.get iid) q)
      simp only [hb]
      constructor
      · intro h; exact absurd h (by simp)
      · intro h
        exact absurd hq (h (iid, q) (List.mem_cons_self _ _))
    · rw [if_neg hq]
      rw [ih]
      constructor
      · intro h pp hpp
        rcases List.mem_cons.mp hpp with h1 | h1
        · rw [h1]; exact hq
        · exact h pp h1
      · intro h pp hpp
        exact h pp (List.mem_cons_of_mem _ hpp)

theorem remove_clamped_exact (inv : Inventory) (c : String) (q : Rat)
    (h0 : 0 ≤ q) (hc : q ≤ inv.get c) :
    ∃ inv', inv.remove_clamped c q = some (inv', q) := by
  unfold Inventory.remove_clamped
  rw [if_neg (not_lt.mpr h0)]
  cases ha : alookup c inv.quantities with
  | none =>
    have : inv.get c = 0 := by
      unfold Inventory.get Inventory.getD
      rw [ha]
      rfl
    rw [this] at hc
    have hq0 : q = 0 := le_antisymm hc h0
    exact ⟨inv, by rw [hq0]⟩
  | some current =>
    have hget : inv.get c = current := by
      unfold Inventory.get Inventory.getD
      rw [ha]
      rfl
    have hmin : min q current = q := min_eq_left (hget ▸ hc)
    dsimp only
    rw [hmin]
    by_cases hrem : qsub current q < invEps
    · exact ⟨⟨aremove c inv.quantities⟩, by rw [if_pos hrem]⟩
    · exact ⟨⟨aset c (qsub current q) inv.quantities⟩, by rw [if_neg hrem]⟩

/-- Modelled from the spec: data/recipes.yaml is not part of the
repository sources; the refine_alloy recipe follows spec section 8
scenario 9 and the milestone tests — 5 minerals and 2 energy per unit,
1 alloy out, up to 10 units per tick. -/
def refine_alloy : Recipe :=
  { id := "refine_alloy", name := "Refine Alloy",
    inputs := [("minerals", 5), ("energy", 2)],
    outputs := [("alloy", 1)],
    max_production_units_per_tick := 10 }

/-- The one-recipe registry of the refine_alloy scenario. -/
def C9_reg : RecipeRegistry := ⟨[refine_alloy]⟩

/-- The scenario world: refine_alloy capped at 10, 100 minerals and 100
energy in stock. -/
def C9_world : World :=
  { id := "w", name := "W",
    market := some { inventory := ⟨[("minerals", 100), ("energy", 100)]⟩ },
    industry := some ⟨[("refine_alloy", 10)]⟩ }

/-- The scenario world after produce: minerals 100-50, energy 100-20,
alloy 0+10. -/
def C9_world' : World :=
  { C9_world with
    market := some { inventory := ⟨[("minerals", 50), ("energy", 80), ("alloy", 10)]⟩ } }

/-- C9: production_units is the minimum of the cap, the recipe's
max_production_units_per_tick and, over the inputs with a positive
per-unit requirement, available/per-unit (conjuncts 1 and 2 characterize
the input bound produce uses as exactly that minimum, and conjunct 3
shows a covered removal removes exactly the requested quantity — never
over-consuming); and in the refine_alloy scenario (cap 10, 5 minerals +
2 energy per unit, 100 minerals / 100 energy in stock) produce changes
minerals by -50, energy by -20 and alloy by +10. -/
theorem C9_produce_units_and_scenario :
    (∀ (inv : Inventory) (inputs : List (String × Rat)) (b : Rat),
      produce_inputs_bound inv inputs none = some b →
      (∃ p ∈ inputs, 0 < p.2 ∧ b = qdiv (inv.get p.1) p.2) ∧
      (∀ p ∈ inputs, 0 < p.2 → b ≤ qdiv (inv.get p.1) p.2)) ∧
    (∀ (inv : Inventory) (inputs : List (String × Rat)),
      produce_inputs_bound inv inputs none = none ↔ ∀ p ∈ inputs, ¬ (0 : Rat) < p.2) ∧
    (∀ (inv : Inventory) (c : String) (q : Rat), 0 ≤ q → q ≤ inv.get c →
      ∃ inv', inv.remove_clamped c q = some (inv', q)) ∧
    (produce C9_world C9_reg = some C9_world' ∧
      (C9_world'.market.map fun m => m.inventory.get "minerals") = some (qsub 100 50) ∧
      (C9_world'.market.map fun m => m.inventory.get "energy") = some (qsub 100 20) ∧
      (C9_world'.market.map fun m => m.inventory.get "alloy") = some (qadd 0 10)) := by
  refine ⟨?_, ?_, remove_clamped_exact, by decide, by decide, by decide, by decide⟩
  · intro inv inputs b h
    obtain ⟨iatt, _, irest⟩ := produce_inputs_bound_spec inv inputs none b h
    refine ⟨?_, irest⟩
    rcases iatt with h1 | h1
    · simp at h1
    · exact h1
  · exact produce_inputs_bound_none_iff

theorem C9_produce_units_and_scenario_witness :
    ((0 : Rat) ≤ 50 ∧ (50 : Rat) ≤ (Inventory.get ⟨[("minerals", 100)]⟩ "minerals")) ∧
    (∃ inv', Inventory.remove_clamped ⟨[("minerals", 100)]⟩ "minerals" 50 =
      some (inv', 50)) :=
  ⟨⟨by decide, by decide⟩,
    C9_produce_units_and_scenario.2.2.1 ⟨[("minerals", 100)]⟩ "minerals" 50
      (by decide) (by decide)⟩

theorem mem_if_list {α : Type} {c : Prop} [Decidable c] {x : α} {l : List α}
    (h : x ∈ (if c then l else [])) : c ∧ x ∈ l := by
  by_cases hc : c
  · rw [if_pos hc] at h; exact ⟨hc, h⟩
  · rw [if_neg hc] at h; simp at h

theorem bct_one_spec (s : UniverseState) (incoming : List ((String × String) × Rat))
    (lane : Lane) (world_a world_b : World) (market_a market_b : Market)
    (com : Commodity) (l : List Shipment)
    (h : bct_one s incoming lane world_a world_b market_a market_b com = some l) :
    ∀ sh ∈ l, sh.commodity_id = com.id ∧ sh.lane_id = some lane.id ∧
      sh.eta_tick = s.tick + pyRound lane.distance ∧
      ((sh.source_world_id = world_a.id ∧ sh.destination_world_id = world_b.id ∧
        sh.quantity = min (market_a.inventory.get com.id) 10 ∧ 0 < sh.quantity) ∨
       (sh.source_world_id = world_b.id ∧ sh.destination_world_id = world_a.id ∧
        sh.quantity = min (min (market_b.inventory.get com.id) 10)
          (max 0 (qsub (agetD market_a.targets com.id 10)
            (qadd (market_a.inventory.get com.id)
              (agetD incoming (world_a.id, com.id) 0)))) ∧
        0 < sh.quantity)) := by
  intro sh hsh
  unfold bct_one at h
  cases hpa : alookup com.id market_a.prices with
  | none =>
    rw [hpa] at h
    cases hpb : alookup com.id market_b.prices <;> rw [hpb] at h <;>
      (simp at h; subst h; simp at hsh)
  | some pa =>
    cases hpb : alookup com.id market_b.prices with
    | none =>
      rw [hpa, hpb] at h
      simp at h
      subst h
      simp at hsh
    | some pb =>
      rw [hpa, hpb] at h
      dsimp only at h
      cases hc : s.commodity_registry.get com.id with
      | none => rw [hc] at h; simp at h
      | some c =>
        rw [hc] at h
        rw [obind_some] at h
        simp only [Option.some.injEq] at h
        subst h
        rcases List.mem_append.mp hsh with hm | hm
        · obtain ⟨hcond, hm2⟩ := mem_if_list hm
          obtain ⟨hpos, heq⟩ := mem_if_list hm2
          rw [List.mem_singleton] at heq
          subst heq
          exact ⟨rfl, rfl, rfl, Or.inl ⟨rfl, rfl, rfl, hpos⟩⟩
        · obtain ⟨hcond, hm2⟩ := mem_if_list hm
          obtain ⟨hpos, heq⟩ := mem_if_list hm2
          rw [List.mem_singleton] at heq
          subst heq
          exact ⟨rfl, rfl, rfl, Or.inr ⟨rfl, rfl, rfl, hpos⟩⟩

theorem bct_commodities_spec (s : UniverseState)
    (incoming : List ((String × String) × Rat)) (lane : Lane)
    (world_a world_b : World) (market_a market_b : Market) :
    ∀ (coms : List Commodity) (l : List Shipment),
      bct_commodities s incoming lane world_a world_b market_a market_b coms = some l →
      ∀ sh ∈ l, ∃ com ∈ coms, sh.commodity_id = com.id ∧ sh.lane_id = some lane.id ∧
        sh.eta_tick = s.tick + pyRound lane.distance ∧
        ((sh.source_world_id = world_a.id ∧ sh.destination_world_id = world_b.id ∧
          sh.quantity = min (market_a.inventory.get com.id) 10 ∧ 0 < sh.quantity) ∨
         (sh.source_world_id = world_b.id ∧ sh.destination_world_id = world_a.id ∧
          sh.quantity = min (min (market_b.inventory.get com.id) 10)
            (max 0 (qsub (agetD market_a.targets com.id 10)
              (qadd (market_a.inventory.get com.id)
                (agetD incoming (world_a.id, com.id) 0)))) ∧
          0 < sh.quantity)) := by
  intro coms
  induction coms with
  | nil =>
    intro l h sh hsh
    rw [bct_commodities] at h
    simp at h
    subst h
    simp at hsh
  | cons com rest ih =>
    intro l h sh hsh
    rw [bct_commodities] at h
    simp only [obind_eq_some, Option.some.injEq] at h
    obtain ⟨here, hhere, further, hfurther, hl⟩ := h
    subst hl
    rcases List.mem_append.mp hsh with hm | hm
    · obtain ⟨h1, h2, h3, h4⟩ :=
        bct_one_spec s incoming lane world_a world_b market_a market_b com here hhere sh hm
      exact ⟨com, List.mem_cons_self _ _, h1, h2, h3, h4⟩
    · obtain ⟨com', hcom', rest_payload⟩ := ih further hfurther sh hm
      exact ⟨com', List.mem_cons_of_mem _ hcom', rest_payload⟩

theorem bct_lanes_spec (s : UniverseState)
    (incoming : List ((String × String) × Rat)) :
    ∀ (lanes : List Lane) (l : List Shipment),
      bct_lanes s incoming lanes = some l →
      ∀ sh ∈ l, ∃ lane ∈ lanes, ∃ world_a world_b market_a market_b,
        s.getWorld lane.a = some world_a ∧ s.getWorld lane.b = some world_b ∧
        world_a.market = some market_a ∧ world_b.market = some market_b ∧
        ∃ com ∈ s.commodity_registry.commodities,
          sh.commodity_id = com.id ∧ sh.lane_id = some lane.id ∧
          sh.eta_tick = s.tick + pyRound lane.distance ∧
          ((sh.source_world_id = world_a.id ∧ sh.destination_world_id = world_b.id ∧
            sh.quantity = min (market_a.inventory.get com.id) 10 ∧ 0 < sh.quantity) ∨
           (sh.source_world_id = world_b.id ∧ sh.destination_world_id = world_a.id ∧
            sh.quantity = min (min (market_b.inventory.get com.id) 10)
              (max 0 (qsub (agetD market_a.targets com.id 10)
                (qadd (market_a.inventory.get com.id)
                  (agetD incoming (world_a.id, com.id) 0)))) ∧
            0 < sh.quantity)) := by
  intro lanes
  induction lanes with
  | nil =>
    intro l h sh hsh
    rw [bct_lanes] at h
    simp at h
    subst h
    simp at hsh
  | cons lane rest ih =>
    intro l h sh hsh
    rw [bct_lanes] at h
    cases hwa : s.getWorld lane.a with
    | none =>
      rw [hwa] at h
      dsimp only at h
      obtain ⟨lane', hlane', rest_payload⟩ := ih l h sh hsh
      exact ⟨lane', List.mem_cons_of_mem _ hlane', rest_payload⟩
    | some world_a =>
      rw [hwa] at h
      cases hwb : s.getWorld lane.b with
      | none =>
        rw [hwb] at h
        dsimp only at h
        obtain ⟨lane', hlane', rest_payload⟩ := ih l h sh hsh
        exact ⟨lane', List.mem_cons_of_mem _ hlane', rest_payload⟩
      | some world_b =>
        rw [hwb] at h
        dsimp only at h
        cases hma : world_a.market with
        | none =>
          rw [hma] at h
          dsimp only at h
          obtain ⟨lane', hlane', rest_payload⟩ := ih l h sh hsh
          exact ⟨lane', List.mem_cons_of_mem _ hlane', rest_payload⟩
        | some market_a =>
          rw [hma] at h
          cases hmb : world_b.market with
          | none =>
            rw [hmb] at h
            dsimp only at h
            obtain ⟨lane', hlane', rest_payload⟩ := ih l h sh hsh
            exact ⟨lane', List.mem_cons_of_mem _ hlane', rest_payload⟩
          | some market_b =>
            rw [hmb] at h
            dsimp only at h
            simp only [obind_eq_some, Option.some.injEq] at h
            obtain ⟨here, hhere, further, hfurther, hl⟩ := h
            subst hl
            rcases List.mem_append.mp hsh with hm | hm
            · obtain ⟨com, hcom, payload⟩ := bct_commodities_spec s incoming lane
                world_a world_b market_a market_b
                s.commodity_registry.all_commodities here hhere sh hm
              exact ⟨lane, List.mem_cons_self _ _, world_a, world_b, market_a, market_b,
                hwa, hwb, hma, hmb, com, hcom, payload⟩
            · obtain ⟨lane', hlane', rest_payload⟩ := ih further hfurther sh hm
              exact ⟨lane', List.mem_cons_of_mem _ hlane', rest_payload⟩

/-- The direction-dependent shape of every candidate shipment: in the
lane a-to-b direction the quantity is min(source stock, 10) with no
destination-demand cap; only the b-to-a direction additionally caps the
quantity by the unmet destination demand net of incoming shipments. -/
def C4_candidate_shape (s : UniverseState) (sh : Shipment) : Prop :=
  ∃ lane ∈ s.lanes, ∃ world_a world_b market_a market_b,
    s.getWorld lane.a = some world_a ∧ s.getWorld lane.b = some world_b ∧
    world_a.market = some market_a ∧ world_b.market = some market_b ∧
    ∃ com ∈ s.commodity_registry.commodities,
      sh.commodity_id = com.id ∧ sh.lane_id = some lane.id ∧
      sh.eta_tick = s.tick + pyRound lane.distance ∧
      ((sh.source_world_id = world_a.id ∧ sh.destination_world_id = world_b.id ∧
        sh.quantity = min (market_a.inventory.get com.id) 10 ∧ 0 < sh.quantity) ∨
       (sh.source_world_id = world_b.id ∧ sh.destination_world_id = world_a.id ∧
        sh.quantity = min (min (market_b.inventory.get com.id) 10)
          (max 0 (qsub (agetD market_a.targets com.id 10)
            (qadd (market_a.inventory.get com.id)
              (agetD (incoming_by_world_commodity s.active_shipments)
                (world_a.id, com.id) 0)))) ∧
        0 < sh.quantity))

/-- The two-world arbitrage scenario of tests/test_milestone7.py: w1 has
5 food priced 8, w2 has 50 food priced 15, food base price 10, one lane
of distance 1, hazard 0, capacity 100. -/
def C4_market1 : Market :=
  { inventory := ⟨[("food", 5)]⟩, prices := [("food", 8)] }

def C4_market2 : Market :=
  { inventory := ⟨[("food", 50)]⟩, prices := [("food", 15)],
    min_price_multiplier := mkRat 9 10 }

def C4_state : UniverseState :=
  { seed := 123, rng := ⟨fun _ => 0, 0⟩,
    worlds := [{ id := "w1", name := "World 1", market := some C4_market1 },
               { id := "w2", name := "World 2", market := some C4_market2 }],
    lanes := [{ id := "l1-2", a := "w1", b := "w2", distance := 1, hazard := 0,
                capacity := 100 }],
    commodity_registry := ⟨[{ id := "food", name := "Food", base_price := 10 }]⟩ }

/-- The single candidate the code emits in the scenario. -/
def C4_shipment : Shipment :=
  { commodity_id := "food", quantity := 5, source_world_id := "w1",
    destination_world_id := "w2", eta_tick := 1, lane_id := some "l1-2" }

/-- C4 (amended): every candidate shipment build_candidate_trades emits
follows the direction-dependent quantity rule C4_candidate_shape — only
the lane b-to-a direction caps the quantity by the unmet destination
demand; the a-to-b direction ships min(source stock, 10) regardless of
destination demand — and in the two-world scenario exactly one shipment
is produced, from the low-price world w1 to the high-price world w2,
with quantity min(source stock, 10) = 5 even though w2 already holds 50
food against a default target of 10. -/
theorem C4_build_candidate_trades_quantities :
    (∀ (s : UniverseState) (l : List Shipment),
      build_candidate_trades s = some l → ∀ sh ∈ l, C4_candidate_shape s sh) ∧
    build_candidate_trades C4_state = some [C4_shipment] ∧
    C4_shipment.source_world_id = "w1" ∧
    C4_shipment.destination_world_id = "w2" ∧
    C4_shipment.quantity = min (C4_market1.inventory.get "food") 10 := by
  refine ⟨?_, by decide, rfl, rfl, by decide⟩
  intro s l h sh hsh
  exact bct_lanes_spec s (incoming_by_world_commodity s.active_shipments)
    s.lanes l h sh hsh

/-- The quantity the original claim predicts for the scenario shipment
(min of source stock, 10, and unmet destination demand net of incoming)
is 0, while the code emits a shipment of quantity 5: the a-to-b branch
of build_candidate_trades applies no destination-demand cap. -/
theorem C4_counterexample :
    build_candidate_trades C4_state = some [C4_shipment] ∧
    C4_shipment.quantity = 5 ∧
    min (min (C4_market1.inventory.get "food") 10)
      (max 0 (qsub (agetD C4_market2.targets "food" 10)
        (qadd (C4_market2.inventory.get "food") 0))) = 0 ∧
    (5 : Rat) ≠ 0 := by decide

theorem C4_build_candidate_trades_quantities_witness :
    C4_candidate_shape C4_state C4_shipment :=
  C4_build_candidate_trades_quantities.1 C4_state [C4_shipment] (by decide)
    C4_shipment (List.mem_singleton.mpr rfl)

/-- Projection: the stock of a commodity in a world market (-1 when the
world or market is missing, so the projection is total). -/
def world_stock (s : UniverseState) (wid cid : String) : Rat :=
  match s.getWorld wid with
  | some w =>
    match w.market with
    | some m => m.inventory.get cid
    | none => -1
  | none => -1

/-- C5 failing input: world A holds 15 food priced 8; worlds B and C
price food at 15 (base 10); lanes A-C then A-B, each distance 1, hazard
0, capacity 100.  build_candidate_trades emits two candidates of
quantity 10 each from the same 15-food source. -/
def C5_state : UniverseState :=
  { seed := 1, rng := ⟨fun _ => 0, 0⟩,
    worlds := [{ id := "A", name := "A",
                 market := some { inventory := ⟨[("food", 15)]⟩,
                                  prices := [("food", 8)] } },
               { id := "B", name := "B",
                 market := some { inventory := ⟨[]⟩,
                                  prices := [("food", 15)] } },
               { id := "C", name := "C",
                 market := some { inventory := ⟨[]⟩,
                                  prices := [("food", 15)] } }],
    lanes := [{ id := "L1", a := "A", b := "C", distance := 1, hazard := 0,
                capacity := 100 },
              { id := "L2", a := "A", b := "B", distance := 1, hazard := 0,
                capacity := 100 }],
    commodity_registry := ⟨[{ id := "food", name := "Food", base_price := 10 }]⟩ }

/-- State after the departure tick of process_trade on C5_state. -/
def C5_s1 : UniverseState :=
  match process_trade C5_state true with
  | some (s, _) => s
  | none => C5_state

/-- The next tick: only arrivals are processed. -/
def C5_run2 : Option (UniverseState × List Shipment) :=
  process_trade { C5_s1 with tick := 1 } false

def C5_s2 : UniverseState :=
  match C5_run2 with
  | some (s, _) => s
  | none => C5_state

def C5_arrived : List Shipment :=
  match C5_run2 with
  | some (_, a) => a
  | none => []

/-- C5: in-flight goods are NOT conserved.  On C5_state the departure
tick removes 15 food from source A (10 for the first shipment, then only
5 remain for the second, so remove_clamped deducts 5), yet both admitted
shipments keep their original quantity 10; when they arrive, B and C are
credited 10 each, so 20 food is delivered although only 15 was removed —
the second shipment's credited quantity (10) differs from the quantity
actually removed for it (5). -/
theorem C5_in_flight_goods_not_conserved :
    world_stock C5_state "A" "food" = 15 ∧
    (process_trade C5_state true).isSome ∧
    world_stock C5_s1 "A" "food" = 0 ∧
    C5_s1.active_shipments.map (fun sh => sh.quantity) = [10, 10] ∧
    C5_arrived.map (fun sh => sh.quantity) = [10, 10] ∧
    world_stock C5_s2 "C" "food" = 10 ∧
    world_stock C5_s2 "B" "food" = 10 ∧
    qadd (world_stock C5_s2 "B" "food") (world_stock C5_s2 "C" "food") = 20 ∧
    qsub (world_stock C5_state "A" "food") (world_stock C5_s1 "A" "food") = 15 ∧
    ¬ ((20 : Rat) = 15) := by decide

/-- C6 failing input: as C5 but with a second commodity (minerals,
10 in stock at A, also priced 8 vs 15) and lane L2 capacity 16.  On L2
the food shipment is admitted with quantity 10 while only 5 is deducted
(and only 5 is charged to the capacity tracker), so the minerals
shipment of quantity 10 still passes the remaining-capacity check. -/
def C6_state : UniverseState :=
  { seed := 1, rng := ⟨fun _ => 0, 0⟩,
    worlds := [{ id := "A", name := "A",
                 market := some { inventory := ⟨[("food", 15), ("minerals", 10)]⟩,
                                  prices := [("food", 8), ("minerals", 8)] } },
               { id := "B", name := "B",
                 market := some { inventory := ⟨[]⟩,
                                  prices := [("food", 15), ("minerals", 15)] } },
               { id := "C", name := "C",
                 market := some { inventory := ⟨[]⟩,
                                  prices := [("food", 15)] } }],
    lanes := [{ id := "L1", a := "A", b := "C", distance := 1, hazard := 0,
                capacity := 100 },
              { id := "L2", a := "A", b := "B", distance := 1, hazard := 0,
                capacity := 16 }],
    commodity_registry := ⟨[{ id := "food", name := "Food", base_price := 10 },
                            { id := "minerals", name := "Minerals",
                              base_price := 10 }]⟩ }

/-- State after process_trade on C6_state. -/
def C6_s1 : UniverseState :=
  match process_trade C6_state true with
  | some (s, _) => s
  | none => C6_state

/-- The quantities of the shipments departing a lane this tick. -/
def lane_departing (s : UniverseState) (lid : String) : List Rat :=
  (s.active_shipments.filter (fun sh => sh.lane_id == some lid)).map
    (fun sh => sh.quantity)

/-- C6: the per-lane capacity invariant fails.  On C6_state lane L2 has
capacity 16 but the shipments departing it this tick have quantities
10 and 10, summing to 20 > 16: the capacity tracker was charged only the
actually-deducted 5 for the food shipment (tracker total 15 <= 16), so
the remaining-capacity check admitted the minerals shipment even though
the departing quantities exceed the lane capacity. -/
theorem C6_lane_capacity_exceeded :
    (process_trade C6_state true).isSome ∧
    lane_departing C6_s1 "L2" = [10, 10] ∧
    (lane_departing C6_s1 "L2").foldl qadd 0 = 20 ∧
    agetD C6_s1.lane_capacity_tracker.used_capacity "L2" 0 = 15 ∧
    (match C6_state.getLane "L2" with | some l => l.capacity | none => 0) = 16 ∧
    ¬ ((20 : Rat) ≤ 16) := by decide

theorem select_invest_civilian_no_owned (f : Faction) :
    ∀ (worlds : List World) (best : ActionPlan),
      (∀ w ∈ worlds, (match w.factions with
        | some fs => fs.control != some f.id
        | none => true) = true) →
      select_invest_civilian f worlds best = best := by
  intro worlds
  induction worlds with
  | nil => intro best _; rfl
  | cons w rest ih =>
    intro best h
    have hw := h w (List.mem_cons_self _ _)
    have howned : (match w.factions with
        | some fs => fs.control == some f.id
        | none => false) = false := by
      cases hwf : w.factions with
      | none => rfl
      | some fs =>
        rw [hwf] at hw
        have hne : fs.control ≠ some f.id := bne_iff_ne.mp hw
        exact beq_eq_false_iff_ne.mpr hne
    rw [select_invest_civilian, howned]
    simp only [Bool.false_eq_true, if_false]
    exact ih best (fun w' hw' => h w' (List.mem_cons_of_mem _ hw'))

theorem select_invest_military_no_owned (f : Faction) :
    ∀ (worlds : List World) (best : ActionPlan),
      (∀ w ∈ worlds, (match w.factions with
        | some fs => fs.control != some f.id
        | none => true) = true) →
      select_invest_military f worlds best = best := by
  intro worlds
  induction worlds with
  | nil => intro best _; rfl
  | cons w rest ih =>
    intro best h
    have hw := h w (List.mem_cons_self _ _)
    have howned : (match w.factions with
        | some fs => fs.control == some f.id
        | none => false) = false := by
      cases hwf : w.factions with
      | none => rfl
      | some fs =>
        rw [hwf] at hw
        have hne : fs.control ≠ some f.id := bne_iff_ne.mp hw
        exact beq_eq_false_iff_ne.mpr hne
    rw [select_invest_military, howned]
    simp only [Bool.false_eq_true, if_false]
    exact ih best (fun w' hw' => h w' (List.mem_cons_of_mem _ hw'))

/-- A faction controlling no world selects the no_action sentinel, and
the integrate.py loop body AS WRITTEN (apply_one_faction_body, the dead
code behind the TYPE_CHECKING-only imports) would then leave the state
unchanged. -/
theorem controlless_select_no_action (sqrtFn : Rat → Rat) (s : UniverseState)
    (f : Faction)
    (h : ∀ w ∈ s.worlds, (match w.factions with
      | some fs => fs.control != some f.id
      | none => true) = true) :
    select_action sqrtFn f s = some no_action_plan ∧
    apply_one_faction_body sqrtFn s f = some s := by
  have hfilter : s.worlds.filter (fun w => match w.factions with
      | some fs => fs.control = some f.id
      | none => false) = [] := by
    rw [List.filter_eq_nil_iff]
    intro w hw
    have hw' := h w hw
    cases hwf : w.factions with
    | none => simp
    | some fs =>
      rw [hwf] at hw'
      have hne : fs.control ≠ some f.id := bne_iff_ne.mp hw'
      show ¬ decide (fs.control = some f.id) = true
      simpa using hne
  have hsel : select_action sqrtFn f s = some no_action_plan := by
    rw [select_action, hfilter]
    dsimp only [List.map_nil]
    rw [show candidate_expansion_worlds s f [] = some [] from rfl]
    rw [obind_some]
    rw [show select_expansion sqrtFn f s [] no_action_plan = some no_action_plan
      from rfl]
    rw [obind_some]
    by_cases h1 : f.traits ≠ [] ∧ "expansionist" ∈ f.traits
    · rw [if_pos h1, select_invest_civilian_no_owned f s.worlds no_action_plan h]
      by_cases h2 : f.traits ≠ [] ∧ "aggressive" ∈ f.traits
      · rw [if_pos h2, select_invest_military_no_owned f s.worlds no_action_plan h]
      · rw [if_neg h2]
    · rw [if_neg h1]
      by_cases h2 : f.traits ≠ [] ∧ "aggressive" ∈ f.traits
      · rw [if_pos h2, select_invest_military_no_owned f s.worlds no_action_plan h]
      · rw [if_neg h2]
  refine ⟨hsel, ?_⟩
  rw [apply_one_faction_body, hsel, obind_some]
  rfl

/-- A universe where world V is controlled by faction X; faction Y (with
both AI traits) controls nothing. -/
def C10_wstate : UniverseState :=
  { seed := 7, rng := ⟨fun _ => 0, 0⟩,
    worlds := [{ id := "V", name := "V",
                 market := some { inventory := ⟨[("minerals", 50), ("alloy", 50)]⟩ },
                 factions := some { influence := [("X", 1)], control := some "X" } },
               { id := "W", name := "W" }],
    lanes := [{ id := "L", a := "V", b := "W" }],
    factions := [{ id := "X", name := "X" },
                 { id := "Y", name := "Y",
                   traits := ["expansionist", "aggressive"] }] }

def C10_f : Faction :=
  { id := "Y", name := "Y", traits := ["expansionist", "aggressive"] }

/-- C10 (code bug): select_action does return the no_action sentinel
for a faction controlling no world, and the dispatch written in
integrate.py would then leave the state unchanged — but that dispatch is
dead code: integrate.py binds select_action and every action name only
under TYPE_CHECKING, so at runtime the loop body raises NameError
(modelled as none) on every faction, whatever it controls, and
apply_faction_actions fails on any state with at least one faction —
the claimed 'leaves the universe state entirely unchanged on F's
turn' never happens; the turn crashes instead, as conjuncts 2-4 show
(conjunct 4 evaluates the concrete two-faction universe C10_wstate). -/
theorem C10_faction_actions_name_error :
    (∀ (sqrtFn : Rat → Rat) (s : UniverseState) (f : Faction),
      (∀ w ∈ s.worlds, (match w.factions with
        | some fs => fs.control != some f.id
        | none => true) = true) →
      select_action sqrtFn f s = some no_action_plan ∧
      apply_one_faction_body sqrtFn s f = some s) ∧
    (∀ (sqrtFn : Rat → Rat) (s : UniverseState) (f : Faction),
      apply_one_faction sqrtFn s f = none) ∧
    (∀ (sqrtFn : Rat → Rat) (s : UniverseState) (f : Faction)
      (rest : List Faction),
      apply_faction_actions_loop sqrtFn (f :: rest) s = none) ∧
    apply_faction_actions (fun x => x) C10_wstate = none := by
  refine ⟨controlless_select_no_action, fun _ _ _ => rfl, ?_, ?_⟩
  · intro sqrtFn s f rest
    rw [apply_faction_actions_loop]
    rfl
  · rfl

theorem C10_faction_actions_name_error_witness :
    select_action (fun x => x) C10_f C10_wstate = some no_action_plan ∧
    apply_one_faction_body (fun x => x) C10_wstate C10_f = some C10_wstate :=
  C10_faction_actions_name_error.1 (fun x => x) C10_wstate C10_f (by decide)

/-- A small initial content: one world with a market holding food, one
food commodity; no factions or events. -/
def C1_content : UniverseContent :=
  { worlds := [{ id := "w", name := "W",
                 market := some { inventory := ⟨[("food", 20)]⟩,
                                  prices := [("food", 8)],
                                  targets := [("food", 10)] },
                 population := some { size := 100 } }],
    commodity_registry := ⟨[{ id := "food", name := "Food", base_price := 10 }]⟩ }

/-- C1: two-run determinism — the audit-log sequence of N steps is a
function of the seed, the initial content, the RNG stream and the sqrt
interface alone, so two states constructed with the same seed and
identical content produce field-for-field identical audit logs; and on a
concrete content two full steps succeed, producing a two-tick trace. -/
theorem C1_two_run_determinism :
    (∀ (sqrtFn : Rat → Rat) (mtStream : Int → Nat → Rat) (seed1 seed2 : Int)
       (c1 c2 : UniverseContent) (N : Nat), seed1 = seed2 → c1 = c2 →
       audit_trace sqrtFn N (UniverseState.create mtStream seed1 c1) =
       audit_trace sqrtFn N (UniverseState.create mtStream seed2 c2)) ∧
    (audit_trace (fun x => x) 2
      (UniverseState.create (fun _ _ => mkRat 1 2) 123 C1_content)).length = 2 := by
  constructor
  · intro sqrtFn mtStream seed1 seed2 c1 c2 N hseed hc
    subst hseed; subst hc; rfl
  · decide

theorem C1_two_run_determinism_witness :
    audit_trace (fun x => x) 3 (UniverseState.create (fun _ _ => 0) 5 C1_content) =
    audit_trace (fun x => x) 3 (UniverseState.create (fun _ _ => 0) 5 C1_content) :=
  C1_two_run_determinism.1 (fun x => x) (fun _ _ => 0) 5 5 C1_content C1_content 3
    rfl rfl

theorem foldl_if_mul_filter {α : Type} (p : α → Bool) (w : α → Rat) :
    ∀ (l : List α) (a : Rat),
      l.foldl (fun m c => if p c then qmul m (w c) else m) a =
      ((l.filter p).map w).foldl qmul a := by
  intro l
  induction l with
  | nil => intro a; rfl
  | cons c rest ih =>
    intro a
    by_cases hp : p c = true
    · rw [List.foldl_cons, List.filter_cons, if_pos hp, if_pos hp, List.map_cons,
        List.foldl_cons, ih]
    · rw [List.foldl_cons, List.filter_cons, if_neg hp, if_neg hp, ih]

theorem pool_inner_pos (s : UniverseState) (world : World) :
    ∀ (events : List EventDef) (acc : List (EventDef × String × Rat)),
      (∀ t ∈ acc, 0 < t.2.2) →
      ∀ t ∈ events.foldl
          (fun acc2 event_def =>
            let weight_multiplier := evaluate_event_conditions event_def world s
            let final_weight := qmul event_def.base_weight weight_multiplier
            if 0 < final_weight then acc2 ++ [(event_def, world.id, final_weight)]
            else acc2)
          acc, 0 < t.2.2 := by
  intro events
  induction events with
  | nil => intro acc hacc t ht; exact hacc t ht
  | cons ed rest ih =>
    intro acc hacc t ht
    rw [List.foldl_cons] at ht
    refine ih _ ?_ t ht
    dsimp only
    by_cases hw : 0 < qmul ed.base_weight (evaluate_event_conditions ed world s)
    · rw [if_pos hw]
      intro t' ht'
      rcases List.mem_append.mp ht' with h1 | h1
      · exact hacc t' h1
      · rw [List.mem_singleton] at h1
        subst h1
        exact hw
    · rw [if_neg hw]
      exact hacc

theorem pool_pos (s : UniverseState) :
    ∀ t ∈ possible_events_with_weights s, 0 < t.2.2 := by
  rw [possible_events_with_weights]
  have haux : ∀ (worlds : List World) (acc : List (EventDef × String × Rat)),
      (∀ t ∈ acc, 0 < t.2.2) →
      ∀ t ∈ worlds.foldl
          (fun acc world =>
            s.event_registry.all_events.foldl
              (fun acc2 event_def =>
                let weight_multiplier := evaluate_event_conditions event_def world s
                let final_weight := qmul event_def.base_weight weight_multiplier
                if 0 < final_weight then acc2 ++ [(event_def, world.id, final_weight)]
                else acc2)
              acc)
          acc, 0 < t.2.2 := by
    intro worlds
    induction worlds with
    | nil => intro acc hacc t ht; exact hacc t ht
    | cons world rest ih =>
      intro acc hacc t ht
      rw [List.foldl_cons] at ht
      exact ih _ (pool_inner_pos s world s.event_registry.all_events acc hacc) t ht
  exact haux s.worlds [] (by intro t ht; cases ht)

theorem pyChoicesWeighted_go_spec {α : Type} (population : List α) (cum : List Rat)
    (total : Rat) (hi : Nat) :
    ∀ (k : Nat) (r : Rng) (acc res : List α) (r' : Rng),
      pyChoicesWeighted_go population cum total hi k r acc = some (res, r') →
      res.length = acc.length + k ∧ ∀ x ∈ res, x ∈ acc ∨ x ∈ population := by
  intro k
  induction k with
  | zero =>
    intro r acc res r' h
    rw [pyChoicesWeighted_go] at h
    simp only [Option.some.injEq, Prod.mk.injEq] at h
    obtain ⟨h1, _⟩ := h
    subst h1
    exact ⟨rfl, fun x hx => Or.inl hx⟩
  | succ k ihk =>
    intro r acc res r' h
    rw [pyChoicesWeighted_go] at h
    dsimp only [Rng.random] at h
    cases hget : population.get?
        (bisect_count (qmul (r.stream r.idx) total) (cum.take hi)) with
    | none => rw [hget] at h; cases h
    | some x =>
      rw [hget] at h
      obtain ⟨hlen, hmem⟩ := ihk _ _ _ _ h
      constructor
      · rw [hlen, List.length_append, List.length_singleton]
        omega
      · intro y hy
        rcases hmem y hy with hin | hin
        · rcases List.mem_append.mp hin with h1 | h1
          · exact Or.inl h1
          · rw [List.mem_singleton] at h1
            subst h1
            exact Or.inr (List.get?_mem hget)
        · exact Or.inr hin

theorem pyChoicesWeighted_spec {α : Type} (r : Rng) (population : List α)
    (weights : List Rat) (k : Nat) (res : List α) (r' : Rng)
    (h : pyChoicesWeighted r population weights k = some (res, r')) :
    res.length = k ∧ ∀ x ∈ res, x ∈ population := by
  rw [pyChoicesWeighted] at h
  by_cases hc : population.length = 0 ∨ weights.length ≠ population.length
  · rw [if_pos hc] at h; cases h
  · rw [if_neg hc] at h
    obtain ⟨hlen, hmem⟩ :=
      pyChoicesWeighted_go_spec population (cum_weights weights 0)
        ((cum_weights weights 0).getLastD 0) (population.length - 1) k r [] res r' h
    refine ⟨by simpa using hlen, fun x hx => (hmem x hx).resolve_left ?_⟩
    exact List.not_mem_nil x

theorem generate_events_spec (s : UniverseState) (n : Nat)
    (sel : List (EventDef × String)) (rng' : Rng)
    (h : generate_events s n = some (sel, rng')) :
    sel.length ≤ n ∧
    ∀ p ∈ sel, ∃ w, (p.1, p.2, w) ∈ possible_events_with_weights s := by
  rw [generate_events] at h
  cases hpool : possible_events_with_weights s with
  | nil =>
    rw [hpool] at h
    dsimp only at h
    simp only [Option.some.injEq, Prod.mk.injEq] at h
    obtain ⟨h1, _⟩ := h
    subst h1
    exact ⟨Nat.zero_le n, fun p hp => absurd hp (List.not_mem_nil p)⟩
  | cons t rest =>
    rw [hpool] at h
    dsimp only at h
    by_cases hguard : (t :: rest).map (fun t => t.2.2) ≠ [] ∧
        0 < ((t :: rest).map (fun t => t.2.2)).foldl qadd 0
    · rw [if_pos hguard] at h
      rw [obind_eq_some] at h
      obtain ⟨⟨chosen, r2⟩, hpc, heq⟩ := h
      simp only [Option.some.injEq, Prod.mk.injEq] at heq
      obtain ⟨hsel, _⟩ := heq
      obtain ⟨hlen, hmem⟩ := pyChoicesWeighted_spec s.rng (t :: rest)
        ((t :: rest).map (fun t => t.2.2)) (min n (t :: rest).length) chosen r2 hpc
      constructor
      · rw [← hsel, List.length_map, hlen]
        exact Nat.min_le_left _ _
      · intro p hp
        rw [← hsel] at hp
        obtain ⟨t', ht', hgt⟩ := List.mem_map.mp hp
        refine ⟨t'.2.2, ?_⟩
        have heta : (p.1, p.2, t'.2.2) = t' := by
          rw [← hgt]
        rw [heta]
        exact hmem t' ht'
    · rw [if_neg hguard] at h
      simp only [Option.some.injEq, Prod.mk.injEq] at h
      obtain ⟨h1, _⟩ := h
      subst h1
      exact ⟨Nat.zero_le n, fun p hp => absurd hp (List.not_mem_nil p)⟩

/-- C8 (amended): the per-(world,event) weight is base_weight times the
product of the weight multipliers of exactly the satisfied conditions;
pairs with weight <= 0 are excluded from the pool; and up to
max_events_per_tick entries are selected from the pool by weighted
random sampling WITH replacement (random.choices), so every selected
pair comes from the positive-weight pool but the same pair may be drawn
repeatedly. -/
theorem C8_event_weights_and_selection :
    (∀ (ed : EventDef) (world : World) (s : UniverseState),
      evaluate_event_conditions ed world s =
      ((ed.conditions.filter (fun c => condition_satisfied c world s)).map
        (fun c => c.weight_multiplier)).foldl qmul 1) ∧
    (∀ (s : UniverseState), ∀ t ∈ possible_events_with_weights s, 0 < t.2.2) ∧
    (∀ (s : UniverseState) (n : Nat) (sel : List (EventDef × String)) (rng' : Rng),
      generate_events s n = some (sel, rng') →
      sel.length ≤ n ∧
      ∀ p ∈ sel, ∃ w, (p.1, p.2, w) ∈ possible_events_with_weights s) := by
  refine ⟨?_, pool_pos, generate_events_spec⟩
  intro ed world s
  exact foldl_if_mul_filter (fun c => condition_satisfied c world s)
    (fun c => c.weight_multiplier) ed.conditions 1

/-- Two equally-weighted events on one world; the RNG stream is
constantly zero. -/
def C8_e1 : EventDef := { id := "e1" }

def C8_e2 : EventDef := { id := "e2" }

def C8_state : UniverseState :=
  { seed := 9, rng := ⟨fun _ => 0, 0⟩,
    worlds := [{ id := "w", name := "W" }],
    event_registry := ⟨[C8_e1, C8_e2]⟩ }

/-- The selection generate_events makes on C8_state with
max_events_per_tick = 2. -/
def C8_sel : List (EventDef × String) :=
  match generate_events C8_state 2 with
  | some (sel, _) => sel
  | none => []

/-- The pool has two distinct entries of weight 1 each, yet the
selection of 2 entries contains (e1, w) twice: sampling is WITH
replacement (random.choices), so a selection without replacement —
which from a 2-element pool would be duplicate-free — is refuted. -/
theorem C8_counterexample :
    possible_events_with_weights C8_state =
      [(C8_e1, "w", 1), (C8_e2, "w", 1)] ∧
    C8_sel = [(C8_e1, "w"), (C8_e1, "w")] ∧
    ¬ C8_sel.Nodup := by decide

theorem C8_event_weights_and_selection_witness :
    C8_sel.length ≤ 2 ∧
    ∀ p ∈ C8_sel, ∃ w, (p.1, p.2, w) ∈ possible_events_with_weights C8_state :=
  C8_event_weights_and_selection.2.2 C8_state 2 C8_sel ⟨fun _ => 0, 2⟩ rfl

theorem inv_get_nonneg (inv : Inventory) (hn : inv.Nonneg) (c : String) :
    0 ≤ inv.get c := by
  rw [Inventory.get, Inventory.getD]
  cases ha : alookup c inv.quantities with
  | none => exact le_refl 0
  | some v => exact hn (c, v) (alookup_mem ha)

theorem inv_add_none_iff (inv : Inventory) (c : String) (q : Rat) :
    inv.add c q = none ↔ q < 0 := by
  by_cases hq : q < 0 <;> simp [Inventory.add, hq]

theorem inv_setItem_none_iff (inv : Inventory) (c : String) (q : Rat) :
    inv.setItem c q = none ↔ q < 0 := by
  by_cases hq : q < 0
  · simp [Inventory.setItem, hq]
  · by_cases he : q < invEps <;> simp [Inventory.setItem, hq, he]

theorem inv_add_nonneg (inv : Inventory) (c : String) (q : Rat) (inv' : Inventory)
    (hn : inv.Nonneg) (h : inv.add c q = some inv') : inv'.Nonneg := by
  rw [Inventory.add] at h
  by_cases hq : q < 0
  · rw [if_pos hq] at h; cases h
  · rw [if_neg hq] at h
    simp only [Option.some.injEq] at h
    subst h
    intro p hp
    rcases mem_aset hp with h1 | h1
    · subst h1
      dsimp only
      rw [qadd_eq]
      exact add_nonneg (inv_get_nonneg inv hn c) (not_lt.mp hq)
    · exact hn p h1

theorem inv_remove_clamped_nonneg (inv : Inventory) (c : String) (q : Rat)
    (inv' : Inventory) (r : Rat) (hn : inv.Nonneg)
    (h : inv.remove_clamped c q = some (inv', r)) : inv'.Nonneg ∧ 0 ≤ r := by
  rw [Inventory.remove_clamped] at h
  by_cases hq : q < 0
  · rw [if_pos hq] at h; cases h
  · rw [if_neg hq] at h
    cases ha : alookup c inv.quantities with
    | none =>
      rw [ha] at h
      simp only [Option.some.injEq, Prod.mk.injEq] at h
      obtain ⟨h1, h2⟩ := h
      subst h1; subst h2
      exact ⟨hn, le_refl 0⟩
    | some current =>
      rw [ha] at h
      have hcur : 0 ≤ current := hn (c, current) (alookup_mem ha)
      have hr : 0 ≤ min q current := le_min (not_lt.mp hq) hcur
      dsimp only at h
      by_cases hrem : qsub current (min q current) < invEps
      · rw [if_pos hrem] at h
        simp only [Option.some.injEq, Prod.mk.injEq] at h
        obtain ⟨h1, h2⟩ := h
        subst h1; subst h2
        exact ⟨fun p hp => hn p (mem_aremove hp), hr⟩
      · rw [if_neg hrem] at h
        simp only [Option.some.injEq, Prod.mk.injEq] at h
        obtain ⟨h1, h2⟩ := h
        subst h1; subst h2
        refine ⟨fun p hp => ?_, hr⟩
        rcases mem_aset hp with h1 | h1
        · subst h1
          dsimp only
          rw [qsub_eq]
          have hmle : min q current ≤ current := min_le_right q current
          linarith
        · exact hn p h1

theorem inv_setItem_nonneg (inv : Inventory) (c : String) (q : Rat) (inv' : Inventory)
    (hn : inv.Nonneg) (h : inv.setItem c q = some inv') : inv'.Nonneg := by
  rw [Inventory.setItem] at h
  by_cases hq : q < 0
  · rw [if_pos hq] at h; cases h
  · rw [if_neg hq] at h
    by_cases he : q < invEps
    · rw [if_pos he] at h
      simp only [Option.some.injEq] at h
      subst h
      exact fun p hp => hn p (mem_aremove hp)
    · rw [if_neg he] at h
      simp only [Option.some.injEq] at h
      subst h
      intro p hp
      rcases mem_aset hp with h1 | h1
      · subst h1; exact not_lt.mp hq
      · exact hn p h1

theorem remove_clamped_amount (inv : Inventory) (c : String) (q : Rat) (h0 : 0 ≤ q) :
    ∃ inv', inv.remove_clamped c q = some (inv', min q (inv.get c)) := by
  rw [Inventory.remove_clamped, if_neg (not_lt.mpr h0)]
  cases ha : alookup c inv.quantities with
  | none =>
    refine ⟨inv, ?_⟩
    have hg : inv.get c = 0 := by rw [Inventory.get, Inventory.getD, ha]; rfl
    rw [hg, min_eq_right h0]
  | some current =>
    have hg : inv.get c = current := by rw [Inventory.get, Inventory.getD, ha]; rfl
    dsimp only
    rw [hg]
    by_cases hrem : qsub current (min q current) < invEps
    · exact ⟨_, by rw [if_pos hrem]⟩
    · exact ⟨_, by rw [if_neg hrem]⟩

theorem remove_clamped_deletes (inv : Inventory) (c : String) (q : Rat)
    (inv' : Inventory) (r : Rat)
    (hnd : (inv.quantities.map Prod.fst).Nodup)
    (h : inv.remove_clamped c q = some (inv', r))
    (hsmall : qsub (inv.get c) r < invEps) :
    alookup c inv'.quantities = none := by
  rw [Inventory.remove_clamped] at h
  by_cases hq : q < 0
  · rw [if_pos hq] at h; cases h
  · rw [if_neg hq] at h
    cases ha : alookup c inv.quantities with
    | none =>
      simp only [ha, Option.some.injEq, Prod.mk.injEq] at h
      obtain ⟨h1, _⟩ := h
      subst h1
      exact ha
    | some current =>
      rw [ha] at h
      have hg : inv.get c = current := by rw [Inventory.get, Inventory.getD, ha]; rfl
      dsimp only at h
      by_cases hrem : qsub current (min q current) < invEps
      · rw [if_pos hrem] at h
        simp only [Option.some.injEq, Prod.mk.injEq] at h
        obtain ⟨h1, _⟩ := h
        subst h1
        exact alookup_aremove_self hnd
      · rw [if_neg hrem] at h
        simp only [Option.some.injEq, Prod.mk.injEq] at h
        obtain ⟨h1, h2⟩ := h
        subst h1; subst h2
        rw [hg] at hsmall
        exact absurd hsmall hrem

/-- Every market inventory of the world (if any) is non-negative. -/
def World.MarketNonneg (w : World) : Prop :=
  ∀ m, w.market = some m → m.inventory.Nonneg

/-- Every world market inventory of the state is non-negative. -/
def UniverseState.InvNonneg (s : UniverseState) : Prop :=
  ∀ w ∈ s.worlds, w.MarketNonneg

theorem getWorld_mem {s : UniverseState} {wid : String} {w : World}
    (h : s.getWorld wid = some w) : w ∈ s.worlds :=
  List.mem_of_find?_eq_some h

theorem invNonneg_setWorld (s : UniverseState) (w : World)
    (hs : s.InvNonneg) (hw : w.MarketNonneg) : (s.setWorld w).InvNonneg := by
  intro w' hw'
  rw [UniverseState.setWorld] at hw'
  dsimp only at hw'
  obtain ⟨x, hx, hxe⟩ := List.mem_map.mp hw'
  by_cases hid : x.id = w.id
  · rw [if_pos hid] at hxe; subst hxe; exact hw
  · rw [if_neg hid] at hxe; subst hxe; exact hs x hx

theorem consume_needs_nonneg (size : Int) :
    ∀ (needs : List (String × Rat)) (inv : Inventory) (sc st un : Rat)
      (res : Inventory × Rat × Rat × Rat),
      inv.Nonneg → consume_needs size needs (inv, sc, st, un) = some res →
      res.1.Nonneg := by
  intro needs
  induction needs with
  | nil =>
    intro inv sc st un res hn h
    rw [consume_needs] at h
    simp only [Option.some.injEq] at h
    subst h
    exact hn
  | cons p rest ih =>
    obtain ⟨cid, need⟩ := p
    intro inv sc st un res hn h
    rw [consume_needs] at h
    by_cases hskip : cid = "food" ∨ cid = "consumer_goods"
    · rw [if_pos hskip] at h
      exact ih inv sc st un res hn h
    · rw [if_neg hskip] at h
      rw [obind_eq_some] at h
      obtain ⟨pr, hrc, h2⟩ := h
      obtain ⟨inv', actual⟩ := pr
      have hn' := (inv_remove_clamped_nonneg inv cid _ inv' actual hn hrc).1
      dsimp only at h2
      split at h2 <;> split at h2 <;> exact ih _ _ _ _ _ hn' h2


theorem consume_food_phase_nonneg (market : Market) (tf : Rat)
    (inv1 : Inventory) (a f : Rat) (hn : market.inventory.Nonneg)
    (h : consume_food_phase market tf = some (inv1, a, f)) : inv1.Nonneg := by
  rw [consume_food_phase] at h
  split at h
  · rw [obind_eq_some] at h
    obtain ⟨pr, hrc, he⟩ := h
    obtain ⟨i, act⟩ := pr
    dsimp only at he
    simp only [Option.some.injEq, Prod.mk.injEq] at he
    obtain ⟨he1, -⟩ := he
    subst he1
    exact (inv_remove_clamped_nonneg _ _ _ _ _ hn hrc).1
  · simp only [Option.some.injEq, Prod.mk.injEq] at h
    obtain ⟨he1, -⟩ := h
    subst he1
    exact hn

theorem consume_cg_phase_nonneg (inv : Inventory) (tcg : Rat)
    (inv2 : Inventory) (a f : Rat) (hn : inv.Nonneg)
    (h : consume_cg_phase inv tcg = some (inv2, a, f)) : inv2.Nonneg := by
  rw [consume_cg_phase] at h
  split at h
  · rw [obind_eq_some] at h
    obtain ⟨pr, hrc, he⟩ := h
    obtain ⟨i, act⟩ := pr
    dsimp only at he
    simp only [Option.some.injEq, Prod.mk.injEq] at he
    obtain ⟨he1, -⟩ := he
    subst he1
    exact (inv_remove_clamped_nonneg _ _ _ _ _ hn hrc).1
  · simp only [Option.some.injEq, Prod.mk.injEq] at h
    obtain ⟨he1, -⟩ := h
    subst he1
    exact hn

theorem consume_cg_effects_nonneg (population : Population) (p0 s1 u1 cg : Rat)
    (size1 : Int) (inv2 : Inventory) (ac cf : Rat)
    (inv3 : Inventory) (x y z : Rat) (hn : inv2.Nonneg)
    (h : consume_cg_effects population p0 s1 u1 cg size1 inv2 ac cf =
      some (inv3, x, y, z)) : inv3.Nonneg := by
  rw [consume_cg_effects] at h
  split at h
  · simp only [Option.some.injEq, Prod.mk.injEq] at h
    obtain ⟨he1, -⟩ := h
    subst he1
    exact hn
  · dsimp only at h
    split at h
    · rw [obind_eq_some] at h
      obtain ⟨pr, hrc, he⟩ := h
      obtain ⟨i, act⟩ := pr
      dsimp only at he
      simp only [Option.some.injEq, Prod.mk.injEq] at he
      obtain ⟨he1, -⟩ := he
      subst he1
      exact (inv_remove_clamped_nonneg _ _ _ _ _ hn hrc).1
    · simp only [Option.some.injEq, Prod.mk.injEq] at h
      obtain ⟨he1, -⟩ := h
      subst he1
      exact hn

theorem consume_marketNonneg (world : World) (tick : Int) (world' : World)
    (hn : world.MarketNonneg) (h : consume world tick = some world') :
    world'.MarketNonneg := by
  rw [consume] at h
  cases hpop : world.population with
  | none =>
    rw [hpop] at h
    dsimp only at h
    simp only [Option.some.injEq] at h
    subst h
    exact hn
  | some population =>
    cases hm : world.market with
    | none =>
      rw [hpop, hm] at h
      dsimp only at h
      simp only [Option.some.injEq] at h
      subst h
      exact hn
    | some market =>
      rw [hpop, hm] at h
      dsimp only at h
      have hmn : market.inventory.Nonneg := hn market hm
      rw [obind_eq_some] at h
      obtain ⟨t1, h1, h⟩ := h
      obtain ⟨inv1, af, ff⟩ := t1
      have hinv1 : inv1.Nonneg := consume_food_phase_nonneg _ _ _ _ _ hmn h1
      dsimp only at h
      rw [obind_eq_some] at h
      obtain ⟨t2, h2, h⟩ := h
      obtain ⟨inv2, ac, cf⟩ := t2
      have hinv2 : inv2.Nonneg := consume_cg_phase_nonneg _ _ _ _ _ hinv1 h2
      dsimp only at h
      rw [obind_eq_some] at h
      obtain ⟨t3, h3, h⟩ := h
      obtain ⟨inv3, stb2, prs2, unr2⟩ := t3
      have hinv3 : inv3.Nonneg :=
        consume_cg_effects_nonneg _ _ _ _ _ _ _ _ _ _ _ _ _ hinv2 h3
      dsimp only at h
      rw [obind_eq_some] at h
      obtain ⟨t4, h4, h⟩ := h
      obtain ⟨inv4, sc2, st3, un3⟩ := t4
      have hinv4 : inv4.Nonneg := consume_needs_nonneg _ _ _ _ _ _ _ hinv3 h4
      dsimp only at h
      simp only [Option.some.injEq] at h
      subst h
      intro m' hm'
      simp only [Option.some.injEq] at hm'
      subst hm'
      exact hinv4

theorem produce_consume_inputs_nonneg (units : Rat) :
    ∀ (inputs : List (String × Rat)) (inv inv' : Inventory),
      inv.Nonneg → produce_consume_inputs units inputs inv = some inv' →
      inv'.Nonneg := by
  intro inputs
  induction inputs with
  | nil =>
    intro inv inv' hn h
    rw [produce_consume_inputs] at h
    simp only [Option.some.injEq] at h
    subst h
    exact hn
  | cons p rest ih =>
    obtain ⟨iid, per_unit⟩ := p
    intro inv inv' hn h
    rw [produce_consume_inputs] at h
    rw [obind_eq_some] at h
    obtain ⟨pr, hrc, he⟩ := h
    obtain ⟨i, a⟩ := pr
    dsimp only at he
    exact ih i inv' (inv_remove_clamped_nonneg _ _ _ _ _ hn hrc).1 he

theorem produce_add_outputs_nonneg (units : Rat) :
    ∀ (outputs : List (String × Rat)) (inv inv' : Inventory),
      inv.Nonneg → produce_add_outputs units outputs inv = some inv' →
      inv'.Nonneg := by
  intro outputs
  induction outputs with
  | nil =>
    intro inv inv' hn h
    rw [produce_add_outputs] at h
    simp only [Option.some.injEq] at h
    subst h
    exact hn
  | cons p rest ih =>
    obtain ⟨oid, per_unit⟩ := p
    intro inv inv' hn h
    rw [produce_add_outputs] at h
    rw [obind_eq_some] at h
    obtain ⟨i, hadd, he⟩ := h
    exact ih i inv' (inv_add_nonneg _ _ _ _ hn hadd) he

theorem produce_loop_nonneg (reg : RecipeRegistry) :
    ∀ (caps : List (String × Rat)) (m m' : Market),
      m.inventory.Nonneg → produce_loop reg caps m = some m' →
      m'.inventory.Nonneg := by
  intro caps
  induction caps with
  | nil =>
    intro m m' hn h
    rw [produce_loop] at h
    simp only [Option.some.injEq] at h
    subst h
    exact hn
  | cons p rest ih =>
    obtain ⟨rid, cap_amount⟩ := p
    intro m m' hn h
    rw [produce_loop] at h
    rw [obind_eq_some] at h
    obtain ⟨recipe, hrec, h⟩ := h
    dsimp only at h
    split at h
    · rw [obind_eq_some] at h
      obtain ⟨inv1, hin, h⟩ := h
      rw [obind_eq_some] at h
      obtain ⟨inv2, hout, h⟩ := h
      have hinv1 : inv1.Nonneg := produce_consume_inputs_nonneg _ _ _ _ hn hin
      have hinv2 : inv2.Nonneg := produce_add_outputs_nonneg _ _ _ _ hinv1 hout
      exact ih _ _ hinv2 h
    · exact ih _ _ hn h

theorem produce_marketNonneg (world : World) (reg : RecipeRegistry) (world' : World)
    (hn : world.MarketNonneg) (h : produce world reg = some world') :
    world'.MarketNonneg := by
  rw [produce] at h
  cases hm : world.market with
  | none =>
    rw [hm] at h
    dsimp only at h
    simp only [Option.some.injEq] at h
    subst h
    exact hn
  | some market =>
    cases hi : world.industry with
    | none =>
      rw [hm, hi] at h
      dsimp only at h
      simp only [Option.some.injEq] at h
      subst h
      exact hn
    | some industry =>
      rw [hm, hi] at h
      dsimp only at h
      rw [obind_eq_some] at h
      obtain ⟨m', hml, h⟩ := h
      simp only [Option.some.injEq] at h
      subst h
      intro m2 hm2
      simp only [Option.some.injEq] at hm2
      subst hm2
      exact produce_loop_nonneg reg industry.caps market m' (hn market hm) hml

theorem process_new_shipments_nonneg :
    ∀ (l : List Shipment) (s s' : UniverseState),
      s.InvNonneg → process_new_shipments l s = some s' → s'.InvNonneg := by
  intro l
  induction l with
  | nil =>
    intro s s' hs h
    rw [process_new_shipments] at h
    simp only [Option.some.injEq] at h
    subst h
    exact hs
  | cons shipment rest ih =>
    intro s s' hs h
    rw [process_new_shipments] at h
    cases hlid : shipment.lane_id with
    | none =>
      rw [hlid] at h
      exact ih s s' hs h
    | some lid =>
      rw [hlid] at h
      dsimp only at h
      split at h
      · exact ih s s' hs h
      · rw [obind_eq_some] at h
        obtain ⟨lane, hlane, h⟩ := h
        split at h
        · rw [obind_eq_some] at h
          obtain ⟨source_world, hsw, h⟩ := h
          rw [obind_eq_some] at h
          obtain ⟨market, hmk, h⟩ := h
          rw [obind_eq_some] at h
          obtain ⟨pr, hrc, h⟩ := h
          obtain ⟨inv', actual⟩ := pr
          dsimp only at h
          have hmn : market.inventory.Nonneg :=
            hs source_world (getWorld_mem hsw) market hmk
          have hinv' : inv'.Nonneg :=
            (inv_remove_clamped_nonneg _ _ _ _ _ hmn hrc).1
          have hs1 : (s.setWorld { source_world with
              market := some { market with inventory := inv' } }).InvNonneg := by
            refine invNonneg_setWorld s _ hs ?_
            intro m hm
            simp only [Option.some.injEq] at hm
            subst hm
            exact hinv'
          split at h
          · refine ih _ s' ?_ h
            intro w hw
            exact hs1 w hw
          · exact ih _ s' hs1 h
        · exact ih s s' hs h

theorem process_arrivals_nonneg :
    ∀ (l : List Shipment) (s : UniverseState) (arr rem : List Shipment)
      (s' : UniverseState) (arr' rem' : List Shipment),
      s.InvNonneg → process_arrivals l s arr rem = some (s', arr', rem') →
      s'.InvNonneg := by
  intro l
  induction l with
  | nil =>
    intro s arr rem s' arr' rem' hs h
    rw [process_arrivals] at h
    simp only [Option.some.injEq, Prod.mk.injEq] at h
    obtain ⟨h1, -⟩ := h
    subst h1
    exact hs
  | cons shipment rest ih =>
    intro s arr rem s' arr' rem' hs h
    rw [process_arrivals] at h
    split at h
    · rw [obind_eq_some] at h
      obtain ⟨destination_world, hdw, h⟩ := h
      rw [obind_eq_some] at h
      obtain ⟨market, hmk, h⟩ := h
      rw [obind_eq_some] at h
      obtain ⟨inv', hadd, h⟩ := h
      have hmn : market.inventory.Nonneg :=
        hs destination_world (getWorld_mem hdw) market hmk
      have hinv' : inv'.Nonneg := inv_add_nonneg _ _ _ _ hmn hadd
      have hs1 : (s.setWorld { destination_world with
          market := some { market with inventory := inv' } }).InvNonneg := by
        refine invNonneg_setWorld s _ hs ?_
        intro m hm
        simp only [Option.some.injEq] at hm
        subst hm
        exact hinv'
      exact ih _ _ _ s' arr' rem' hs1 h
    · exact ih _ _ _ s' arr' rem' hs h

theorem process_trade_invNonneg (s : UniverseState) (b : Bool)
    (s' : UniverseState) (arr : List Shipment)
    (hs : s.InvNonneg) (h : process_trade s b = some (s', arr)) :
    s'.InvNonneg := by
  rw [process_trade] at h
  cases b with
  | false =>
    simp only [Bool.false_eq_true, if_false] at h
    rw [obind_some] at h
    dsimp only at h
    rw [obind_eq_some] at h
    obtain ⟨t, hpa, h⟩ := h
    obtain ⟨s3, arrived, remaining⟩ := t
    dsimp only at h
    simp only [Option.some.injEq, Prod.mk.injEq] at h
    obtain ⟨h1, -⟩ := h
    subst h1
    have hs3 : s3.InvNonneg := by
      refine process_arrivals_nonneg _ _ _ _ _ _ _ ?_ hpa
      intro w hw
      exact hs w hw
    intro w hw
    exact hs3 w hw
  | true =>
    simp only [if_true] at h
    rw [obind_eq_some] at h
    obtain ⟨new_shipments, hbct, h⟩ := h
    rw [obind_eq_some] at h
    obtain ⟨s2, hpns, h⟩ := h
    have hs2n : s2.InvNonneg := by
      refine process_new_shipments_nonneg new_shipments _ s2 ?_ hpns
      intro w hw
      exact hs w hw
    rw [obind_eq_some] at h
    obtain ⟨t, hpa, h⟩ := h
    obtain ⟨s3, arrived, remaining⟩ := t
    dsimp only at h
    simp only [Option.some.injEq, Prod.mk.injEq] at h
    obtain ⟨h1, -⟩ := h
    subst h1
    have hs3 : s3.InvNonneg := process_arrivals_nonneg _ _ _ _ _ _ _ hs2n hpa
    intro w hw
    exact hs3 w hw

theorem update_prices_loop_inventory (reg : CommodityRegistry) :
    ∀ (ts : List (String × Rat)) (m m' : Market),
      update_prices_loop reg ts m = some m' → m'.inventory = m.inventory := by
  intro ts
  induction ts with
  | nil =>
    intro m m' h
    rw [update_prices_loop] at h
    simp only [Option.some.injEq] at h
    subst h
    rfl
  | cons p rest ih =>
    obtain ⟨cid, tq⟩ := p
    intro m m' h
    rw [update_prices_loop] at h
    rw [obind_eq_some] at h
    obtain ⟨com, hcom, h⟩ := h
    dsimp only at h
    exact (ih _ _ h).trans rfl

theorem update_prices_marketNonneg (world : World) (reg : CommodityRegistry)
    (world' : World) (hn : world.MarketNonneg)
    (h : update_prices world reg = some world') : world'.MarketNonneg := by
  rw [update_prices] at h
  cases hm : world.market with
  | none =>
    rw [hm] at h
    simp only [Option.some.injEq] at h
    subst h
    exact hn
  | some market0 =>
    rw [hm] at h
    dsimp only at h
    rw [obind_eq_some] at h
    obtain ⟨market2, hloop, h⟩ := h
    simp only [Option.some.injEq] at h
    subst h
    intro m' hm'
    simp only [Option.some.injEq] at hm'
    subst hm'
    have h1 : market2.inventory = (market_price_defaults reg market0).inventory :=
      update_prices_loop_inventory reg _ _ _ hloop
    rw [show market2.inventory.Nonneg =
      (market_price_defaults reg market0).inventory.Nonneg from by rw [h1]]
    rw [(market_price_defaults_preserves reg market0).1]
    exact hn market0 hm

theorem consumption_stage_nonneg :
    ∀ (wids : List String) (s : UniverseState) (log : List AuditEntry)
      (s' : UniverseState) (log' : List AuditEntry),
      s.InvNonneg → consumption_stage wids s log = some (s', log') →
      s'.InvNonneg := by
  intro wids
  induction wids with
  | nil =>
    intro s log s' log' hs h
    rw [consumption_stage] at h
    simp only [Option.some.injEq, Prod.mk.injEq] at h
    obtain ⟨h1, -⟩ := h
    subst h1
    exact hs
  | cons wid rest ih =>
    intro s log s' log' hs h
    rw [consumption_stage] at h
    rw [obind_eq_some] at h
    obtain ⟨world, hg, h⟩ := h
    cases hpop : world.population with
    | none =>
      rw [hpop] at h
      dsimp only at h
      exact ih _ _ s' log' hs h
    | some population =>
      cases hm : world.market with
      | none =>
        rw [hpop, hm] at h
        dsimp only at h
        exact ih _ _ s' log' hs h
      | some market =>
        rw [hpop, hm] at h
        dsimp only at h
        rw [obind_eq_some] at h
        obtain ⟨world', hcons, h⟩ := h
        have hw' : world'.MarketNonneg :=
          consume_marketNonneg world s.tick world'
            (hs world (getWorld_mem hg)) hcons
        exact ih _ _ s' log' (invNonneg_setWorld s world' hs hw') h

theorem production_stage_nonneg (reg : RecipeRegistry) :
    ∀ (wids : List String) (s : UniverseState) (log : List AuditEntry)
      (s' : UniverseState) (log' : List AuditEntry),
      s.InvNonneg → production_stage reg wids s log = some (s', log') →
      s'.InvNonneg := by
  intro wids
  induction wids with
  | nil =>
    intro s log s' log' hs h
    rw [production_stage] at h
    simp only [Option.some.injEq, Prod.mk.injEq] at h
    obtain ⟨h1, -⟩ := h
    subst h1
    exact hs
  | cons wid rest ih =>
    intro s log s' log' hs h
    rw [production_stage] at h
    rw [obind_eq_some] at h
    obtain ⟨world, hg, h⟩ := h
    cases hind : world.industry with
    | none =>
      rw [hind] at h
      dsimp only at h
      exact ih _ _ s' log' hs h
    | some industry =>
      cases hm : world.market with
      | none =>
        rw [hind, hm] at h
        dsimp only at h
        exact ih _ _ s' log' hs h
      | some market =>
        rw [hind, hm] at h
        dsimp only at h
        rw [obind_eq_some] at h
        obtain ⟨world', hprod, h⟩ := h
        have hw' : world'.MarketNonneg :=
          produce_marketNonneg world reg world'
            (hs world (getWorld_mem hg)) hprod
        exact ih _ _ s' log' (invNonneg_setWorld s world' hs hw') h

theorem prices_stage_nonneg (reg : CommodityRegistry) :
    ∀ (wids : List String) (s : UniverseState) (log : List AuditEntry)
      (s' : UniverseState) (log' : List AuditEntry),
      s.InvNonneg → prices_stage reg wids s log = some (s', log') →
      s'.InvNonneg := by
  intro wids
  induction wids with
  | nil =>
    intro s log s' log' hs h
    rw [prices_stage] at h
    simp only [Option.some.injEq, Prod.mk.injEq] at h
    obtain ⟨h1, -⟩ := h
    subst h1
    exact hs
  | cons wid rest ih =>
    intro s log s' log' hs h
    rw [prices_stage] at h
    rw [obind_eq_some] at h
    obtain ⟨world, hg, h⟩ := h
    cases hm : world.market with
    | none =>
      rw [hm] at h
      dsimp only at h
      exact ih _ _ s' log' hs h
    | some market =>
      rw [hm] at h
      dsimp only at h
      rw [obind_eq_some] at h
      obtain ⟨world', hup, h⟩ := h
      have hw' : world'.MarketNonneg :=
        update_prices_marketNonneg world reg world'
          (hs world (getWorld_mem hg)) hup
      cases hm' : world'.market with
      | none =>
        rw [hm'] at h
        dsimp only at h
        cases h
      | some market' =>
        rw [hm'] at h
        dsimp only at h
        rw [obind_eq_some] at h
        obtain ⟨log1, hlog, h⟩ := h
        exact ih _ _ s' log' (invNonneg_setWorld s world' hs hw') h

theorem expand_influence_nonneg (fid wid : String) (s : UniverseState)
    (hs : s.InvNonneg) : ((expand_influence fid wid s).2).InvNonneg := by
  rw [expand_influence]
  cases hg : s.getWorld wid with
  | none => dsimp only; exact hs
  | some world =>
    dsimp only
    cases hf : world.factions with
    | none => dsimp only; exact hs
    | some fs =>
      dsimp only
      refine invNonneg_setWorld s _ hs ?_
      intro m hm
      exact hs world (getWorld_mem hg) m hm

theorem reinforce_nonneg (fid wid : String) (s : UniverseState)
    (hs : s.InvNonneg) : ((reinforce fid wid s).2).InvNonneg := by
  rw [reinforce]
  cases hg : s.getWorld wid with
  | none => dsimp only; exact hs
  | some world =>
    dsimp only
    cases hf : world.factions with
    | none => dsimp only; exact hs
    | some fs =>
      dsimp only
      refine invNonneg_setWorld s _ hs ?_
      intro m hm
      exact hs world (getWorld_mem hg) m hm

theorem raid_lane_nonneg (fid lid : String) (s : UniverseState)
    (hs : s.InvNonneg) : ((raid_lane fid lid s).2).InvNonneg := by
  rw [raid_lane]
  cases hg : s.getLane lid with
  | none => dsimp only; exact hs
  | some lane =>
    dsimp only
    intro w hw
    exact hs w hw

theorem patrol_lane_nonneg (fid lid : String) (s : UniverseState)
    (hs : s.InvNonneg) : ((patrol_lane fid lid s).2).InvNonneg := by
  rw [patrol_lane]
  cases hg : s.getLane lid with
  | none => dsimp only; exact hs
  | some lane =>
    dsimp only
    intro w hw
    exact hs w hw

theorem aid_world_nonneg (fid wid : String) (s : UniverseState)
    (hs : s.InvNonneg) : ((aid_world fid wid s).2).InvNonneg := by
  rw [aid_world]
  cases hg : s.getWorld wid with
  | none => dsimp only; exact hs
  | some world =>
    dsimp only
    refine invNonneg_setWorld s _ hs ?_
    intro m hm
    exact hs world (getWorld_mem hg) m hm

theorem invest_civilian_nonneg (world : World) (s s' : UniverseState)
    (hw : world.MarketNonneg) (hs : s.InvNonneg)
    (h : invest_civilian world s = some s') : s'.InvNonneg := by
  rw [invest_civilian] at h
  cases hm : world.market with
  | none =>
    rw [hm] at h
    dsimp only at h
    simp only [Option.some.injEq] at h
    subst h
    exact hs
  | some market =>
    cases hind : world.industry with
    | none =>
      rw [hm, hind] at h
      dsimp only at h
      simp only [Option.some.injEq] at h
      subst h
      exact hs
    | some industry =>
      rw [hm, hind] at h
      dsimp only at h
      split at h
      · rw [obind_eq_some] at h
        obtain ⟨pr, hrc, h⟩ := h
        obtain ⟨inv', a⟩ := pr
        dsimp only at h
        have hinv' : inv'.Nonneg :=
          (inv_remove_clamped_nonneg _ _ _ _ _ (hw market hm) hrc).1
        split at h
        · simp only [Option.some.injEq] at h
          subst h
          refine invNonneg_setWorld s _ hs ?_
          intro m hm2
          simp only [Option.some.injEq] at hm2
          subst hm2
          exact hinv'
        · rw [obind_eq_some] at h
          obtain ⟨pc, hpc, h⟩ := h
          obtain ⟨rid, rng'⟩ := pc
          dsimp only at h
          simp only [Option.some.injEq] at h
          subst h
          intro w hw2
          refine invNonneg_setWorld s _ hs ?_ w hw2
          intro m hm2
          simp only [Option.some.injEq] at hm2
          subst hm2
          exact hinv'
      · simp only [Option.some.injEq] at h
        subst h
        exact hs

theorem invest_military_nonneg (world : World) (s s' : UniverseState)
    (hw : world.MarketNonneg) (hs : s.InvNonneg)
    (h : invest_military world s = some s') : s'.InvNonneg := by
  rw [invest_military] at h
  cases hm : world.market with
  | none =>
    rw [hm] at h
    dsimp only at h
    simp only [Option.some.injEq] at h
    subst h
    exact hs
  | some market =>
    cases hind : world.industry with
    | none =>
      rw [hm, hind] at h
      dsimp only at h
      simp only [Option.some.injEq] at h
      subst h
      exact hs
    | some industry =>
      rw [hm, hind] at h
      dsimp only at h
      split at h
      · rw [obind_eq_some] at h
        obtain ⟨pr, hrc, h⟩ := h
        obtain ⟨inv', a⟩ := pr
        dsimp only at h
        have hinv' : inv'.Nonneg :=
          (inv_remove_clamped_nonneg _ _ _ _ _ (hw market hm) hrc).1
        split at h
        · simp only [Option.some.injEq] at h
          subst h
          refine invNonneg_setWorld s _ hs ?_
          intro m hm2
          simp only [Option.some.injEq] at hm2
          subst hm2
          exact hinv'
        · rw [obind_eq_some] at h
          obtain ⟨pc, hpc, h⟩ := h
          obtain ⟨rid, rng'⟩ := pc
          dsimp only at h
          simp only [Option.some.injEq] at h
          subst h
          intro w hw2
          refine invNonneg_setWorld s _ hs ?_ w hw2
          intro m hm2
          simp only [Option.some.injEq] at hm2
          subst hm2
          exact hinv'
      · simp only [Option.some.injEq] at h
        subst h
        exact hs

theorem invest_civilian_action_nonneg (fid wid : String) (s : UniverseState)
    (b : Bool) (s' : UniverseState) (hs : s.InvNonneg)
    (h : invest_civilian_action fid wid s = some (b, s')) : s'.InvNonneg := by
  rw [invest_civilian_action] at h
  cases hg : s.getWorld wid with
  | none =>
    rw [hg] at h
    dsimp only at h
    simp only [Option.some.injEq, Prod.mk.injEq] at h
    obtain ⟨-, h2⟩ := h
    subst h2
    exact hs
  | some world =>
    rw [hg] at h
    dsimp only at h
    rw [obind_eq_some] at h
    obtain ⟨s1, hic, h⟩ := h
    simp only [Option.some.injEq, Prod.mk.injEq] at h
    obtain ⟨-, h2⟩ := h
    subst h2
    exact invest_civilian_nonneg world s s1
      (hs world (getWorld_mem hg)) hs hic

theorem invest_military_action_nonneg (fid wid : String) (s : UniverseState)
    (b : Bool) (s' : UniverseState) (hs : s.InvNonneg)
    (h : invest_military_action fid wid s = some (b, s')) : s'.InvNonneg := by
  rw [invest_military_action] at h
  cases hg : s.getWorld wid with
  | none =>
    rw [hg] at h
    dsimp only at h
    simp only [Option.some.injEq, Prod.mk.injEq] at h
    obtain ⟨-, h2⟩ := h
    subst h2
    exact hs
  | some world =>
    rw [hg] at h
    dsimp only at h
    rw [obind_eq_some] at h
    obtain ⟨s1, hic, h⟩ := h
    simp only [Option.some.injEq, Prod.mk.injEq] at h
    obtain ⟨-, h2⟩ := h
    subst h2
    exact invest_military_nonneg world s s1
      (hs world (getWorld_mem hg)) hs hic

theorem apply_one_faction_body_nonneg (sqrtFn : Rat → Rat) (s : UniverseState)
    (faction : Faction) (s' : UniverseState) (hs : s.InvNonneg)
    (h : apply_one_faction_body sqrtFn s faction = some s') : s'.InvNonneg := by
  rw [apply_one_faction_body] at h
  rw [obind_eq_some] at h
  obtain ⟨plan, hsel, h⟩ := h
  dsimp only at h
  cases hp : plan.target with
  | none =>
    rw [hp] at h
    dsimp only at h
    simp only [Option.some.injEq] at h
    subst h
    exact hs
  | some target_id =>
    rw [hp] at h
    dsimp only at h
    split at h
    · simp only [Option.some.injEq] at h
      subst h
      exact hs
    · split at h
      · simp only [Option.some.injEq] at h
        subst h
        exact expand_influence_nonneg _ _ _ hs
      · split at h
        · simp only [Option.some.injEq] at h
          subst h
          exact reinforce_nonneg _ _ _ hs
        · split at h
          · simp only [Option.some.injEq] at h
            subst h
            exact raid_lane_nonneg _ _ _ hs
          · split at h
            · simp only [Option.some.injEq] at h
              subst h
              exact patrol_lane_nonneg _ _ _ hs
            · split at h
              · simp only [Option.some.injEq] at h
                subst h
                exact aid_world_nonneg _ _ _ hs
              · split at h
                · rw [obind_eq_some] at h
                  obtain ⟨pr, hact, h⟩ := h
                  obtain ⟨b, s1⟩ := pr
                  dsimp only at h
                  simp only [Option.some.injEq] at h
                  subst h
                  exact invest_civilian_action_nonneg _ _ _ _ _ hs hact
                · split at h
                  · rw [obind_eq_some] at h
                    obtain ⟨pr, hact, h⟩ := h
                    obtain ⟨b, s1⟩ := pr
                    dsimp only at h
                    simp only [Option.some.injEq] at h
                    subst h
                    exact invest_military_action_nonneg _ _ _ _ _ hs hact
                  · simp only [Option.some.injEq] at h
                    subst h
                    exact hs

theorem apply_one_faction_nonneg (sqrtFn : Rat → Rat) (s : UniverseState)
    (faction : Faction) (s' : UniverseState) (_hs : s.InvNonneg)
    (h : apply_one_faction sqrtFn s faction = some s') : s'.InvNonneg := by
  rw [apply_one_faction] at h
  cases h

theorem apply_faction_actions_loop_nonneg (sqrtFn : Rat → Rat) :
    ∀ (factions : List Faction) (s s' : UniverseState),
      s.InvNonneg → apply_faction_actions_loop sqrtFn factions s = some s' →
      s'.InvNonneg := by
  intro factions
  induction factions with
  | nil =>
    intro s s' hs h
    rw [apply_faction_actions_loop] at h
    simp only [Option.some.injEq] at h
    subst h
    exact hs
  | cons faction rest ih =>
    intro s s' hs h
    rw [apply_faction_actions_loop] at h
    rw [obind_eq_some] at h
    obtain ⟨s1, h1, h⟩ := h
    exact ih s1 s' (apply_one_faction_nonneg sqrtFn s faction s1 hs h1) h

theorem apply_faction_actions_nonneg (sqrtFn : Rat → Rat) (s s' : UniverseState)
    (hs : s.InvNonneg) (h : apply_faction_actions sqrtFn s = some s') :
    s'.InvNonneg := by
  rw [apply_faction_actions] at h
  exact apply_faction_actions_loop_nonneg sqrtFn s.factions s s' hs h

theorem remove_from_random_worlds_nonneg (cid : String) (qty : Rat) :
    ∀ (tids : List String) (s s' : UniverseState),
      s.InvNonneg → remove_from_random_worlds cid qty tids s = some s' →
      s'.InvNonneg := by
  intro tids
  induction tids with
  | nil =>
    intro s s' hs h
    rw [remove_from_random_worlds] at h
    simp only [Option.some.injEq] at h
    subst h
    exact hs
  | cons tid rest ih =>
    intro s s' hs h
    rw [remove_from_random_worlds] at h
    rw [obind_eq_some] at h
    obtain ⟨target_world, hg, h⟩ := h
    cases hm : target_world.market with
    | none =>
      rw [hm] at h
      dsimp only at h
      exact ih s s' hs h
    | some market =>
      rw [hm] at h
      dsimp only at h
      rw [obind_eq_some] at h
      obtain ⟨pr, hrc, h⟩ := h
      obtain ⟨inv', a⟩ := pr
      dsimp only at h
      have hinv' : inv'.Nonneg :=
        (inv_remove_clamped_nonneg _ _ _ _ _
          (hs target_world (getWorld_mem hg) market hm) hrc).1
      refine ih _ s' ?_ h
      refine invNonneg_setWorld s _ hs ?_
      intro m hm2
      simp only [Option.some.injEq] at hm2
      subst hm2
      exact hinv'

theorem apply_effect_nonneg (effect : EventEffect) (wid : String)
    (s s' : UniverseState) (hs : s.InvNonneg)
    (h : apply_effect effect wid s = some s') : s'.InvNonneg := by
  rw [apply_effect] at h
  rw [obind_eq_some] at h
  obtain ⟨world, hg, h⟩ := h
  dsimp only at h
  split at h
  · simp only [Option.some.injEq] at h
    subst h
    refine invNonneg_setWorld s _ hs ?_
    intro m hm
    exact hs world (getWorld_mem hg) m hm
  · split at h
    · simp only [Option.some.injEq] at h
      subst h
      refine invNonneg_setWorld s _ hs ?_
      intro m hm
      exact hs world (getWorld_mem hg) m hm
    · split at h
      · simp only [Option.some.injEq] at h
        subst h
        refine invNonneg_setWorld s _ hs ?_
        intro m hm
        exact hs world (getWorld_mem hg) m hm
      · split at h
        · simp only [Option.some.injEq] at h
          subst h
          refine invNonneg_setWorld s _ hs ?_
          intro m hm
          exact hs world (getWorld_mem hg) m hm
        · split at h
          · cases hm : world.market with
            | none =>
              rw [hm] at h
              dsimp only at h
              simp only [Option.some.injEq] at h
              subst h
              exact hs
            | some market =>
              rw [hm] at h
              dsimp only at h
              rw [obind_eq_some] at h
              obtain ⟨inv', hadd, h⟩ := h
              simp only [Option.some.injEq] at h
              subst h
              have hinv' : inv'.Nonneg :=
                inv_add_nonneg _ _ _ _ (hs world (getWorld_mem hg) market hm) hadd
              refine invNonneg_setWorld s _ hs ?_
              intro m hm2
              simp only [Option.some.injEq] at hm2
              subst hm2
              exact hinv'
          · split at h
            · cases hm : world.market with
              | none =>
                rw [hm] at h
                dsimp only at h
                simp only [Option.some.injEq] at h
                subst h
                exact hs
              | some market =>
                rw [hm] at h
                dsimp only at h
                rw [obind_eq_some] at h
                obtain ⟨pr, hrc, h⟩ := h
                obtain ⟨inv', a⟩ := pr
                dsimp only at h
                simp only [Option.some.injEq] at h
                subst h
                have hinv' : inv'.Nonneg :=
                  (inv_remove_clamped_nonneg _ _ _ _ _
                    (hs world (getWorld_mem hg) market hm) hrc).1
                refine invNonneg_setWorld s _ hs ?_
                intro m hm2
                simp only [Option.some.injEq] at hm2
                subst hm2
                exact hinv'
            · split at h
              · rw [obind_eq_some] at h
                obtain ⟨pr, hres, h⟩ := h
                obtain ⟨laneOpt, rng'⟩ := pr
                dsimp only at h
                cases laneOpt with
                | none =>
                  simp only [Option.some.injEq] at h
                  subst h
                  intro w hw
                  exact hs w hw
                | some lane =>
                  simp only [Option.some.injEq] at h
                  subst h
                  intro w hw
                  exact hs w hw
              · split at h
                · rw [obind_eq_some] at h
                  obtain ⟨pr, hsmp, h⟩ := h
                  obtain ⟨target_ids, rng'⟩ := pr
                  dsimp only at h
                  refine remove_from_random_worlds_nonneg _ _ _ _ s' ?_ h
                  intro w hw
                  exact hs w hw
                · simp only [Option.some.injEq] at h
                  subst h
                  exact hs

theorem effects_loop_nonneg (event_def : EventDef) (twid : String) :
    ∀ (effects : List EventEffect) (s : UniverseState) (log : List AuditEntry)
      (s' : UniverseState) (log' : List AuditEntry),
      s.InvNonneg → effects_loop event_def twid effects s log = some (s', log') →
      s'.InvNonneg := by
  intro effects
  induction effects with
  | nil =>
    intro s log s' log' hs h
    rw [effects_loop] at h
    simp only [Option.some.injEq, Prod.mk.injEq] at h
    obtain ⟨h1, -⟩ := h
    subst h1
    exact hs
  | cons effect rest ih =>
    intro s log s' log' hs h
    rw [effects_loop] at h
    rw [obind_eq_some] at h
    obtain ⟨s1, happ, h⟩ := h
    exact ih s1 _ s' log' (apply_effect_nonneg effect twid s s1 hs happ) h

theorem events_apply_loop_nonneg :
    ∀ (pairs : List (EventDef × String)) (s : UniverseState)
      (log : List AuditEntry) (s' : UniverseState) (log' : List AuditEntry),
      s.InvNonneg → events_apply_loop pairs s log = some (s', log') →
      s'.InvNonneg := by
  intro pairs
  induction pairs with
  | nil =>
    intro s log s' log' hs h
    rw [events_apply_loop] at h
    simp only [Option.some.injEq, Prod.mk.injEq] at h
    obtain ⟨h1, -⟩ := h
    subst h1
    exact hs
  | cons pr rest ih =>
    obtain ⟨event_def, twid⟩ := pr
    intro s log s' log' hs h
    rw [events_apply_loop] at h
    rw [obind_eq_some] at h
    obtain ⟨w0, hg, h⟩ := h
    rw [obind_eq_some] at h
    obtain ⟨t, heff, h⟩ := h
    obtain ⟨s1, log1⟩ := t
    dsimp only at h
    exact ih s1 log1 s' log'
      (effects_loop_nonneg event_def twid event_def.effects s log s1 log1 hs heff) h

theorem step_invNonneg (sqrtFn : Rat → Rat) (s s' : UniverseState)
    (rep : TickReport) (hs : s.InvNonneg)
    (h : step sqrtFn s = some (s', rep)) : s'.InvNonneg := by
  rw [step] at h
  rw [obind_eq_some] at h
  obtain ⟨t1, h1, h⟩ := h
  obtain ⟨s1, log1⟩ := t1
  have hs1 : s1.InvNonneg := consumption_stage_nonneg _ s _ s1 log1 hs h1
  dsimp only at h
  rw [obind_eq_some] at h
  obtain ⟨t2, h2, h⟩ := h
  obtain ⟨s2, log2⟩ := t2
  have hs2 : s2.InvNonneg := production_stage_nonneg _ _ s1 _ s2 log2 hs1 h2
  dsimp only at h
  rw [obind_eq_some] at h
  obtain ⟨t3, h3, h⟩ := h
  obtain ⟨s3, arrived⟩ := t3
  have hs3 : s3.InvNonneg := process_trade_invNonneg s2 true s3 arrived hs2 h3
  dsimp only at h
  rw [obind_eq_some] at h
  obtain ⟨t4, h4, h⟩ := h
  obtain ⟨s4, log4⟩ := t4
  have hs4 : s4.InvNonneg := prices_stage_nonneg _ _ s3 _ s4 log4 hs3 h4
  dsimp only at h
  rw [obind_eq_some] at h
  obtain ⟨s5, h5, h⟩ := h
  have hs5 : s5.InvNonneg := apply_faction_actions_nonneg sqrtFn s4 s5 hs4 h5
  rw [obind_eq_some] at h
  obtain ⟨t6, h6, h⟩ := h
  obtain ⟨events_this_tick, rng1⟩ := t6
  dsimp only at h
  cases events_this_tick with
  | nil =>
    rw [obind_some] at h
    dsimp only at h
    simp only [Option.some.injEq, Prod.mk.injEq] at h
    obtain ⟨h1e, -⟩ := h
    subst h1e
    intro w hw
    exact hs5 w hw
  | cons p rest =>
    rw [obind_eq_some] at h
    obtain ⟨y, hloop, h⟩ := h
    obtain ⟨s6, log6⟩ := y
    have hs6 : s6.InvNonneg := by
      refine events_apply_loop_nonneg _ _ _ s6 log6 ?_ hloop
      intro w hw
      exact hs5 w hw
    dsimp only at h
    simp only [Option.some.injEq, Prod.mk.injEq] at h
    obtain ⟨h1e, -⟩ := h
    subst h1e
    intro w hw
    exact hs6 w hw

instance (w : World) : Decidable w.MarketNonneg := by
  cases hm : w.market with
  | none =>
    exact isTrue (by intro m h; rw [hm] at h; cases h)
  | some mk =>
    exact dite mk.inventory.Nonneg
      (fun hn => isTrue (by
        intro m h
        rw [hm] at h
        injection h with he
        subst he
        exact hn))
      (fun hn => isFalse (fun hc => hn (hc mk hm)))

instance (s : UniverseState) : Decidable s.InvNonneg := by
  unfold UniverseState.InvNonneg
  infer_instance

/-- The state C5_state after one full step, and the tick report. -/
def C2_step_result : Option (UniverseState × TickReport) :=
  step (fun x => x) C5_state

def C2_s1 : UniverseState :=
  match C2_step_result with
  | some (s, _) => s
  | none => C5_state

def C2_rep : TickReport :=
  match C2_step_result with
  | some (_, r) => r
  | none => { tick := 0, log := [] }

/-- C2: inventory non-negativity.  add and item assignment reject
exactly the negative quantities; for qty >= 0 remove_clamped succeeds
and removes exactly min(qty, current) (current reading 0 for a missing
commodity), returning that amount; with duplicate-free keys (the dict
invariant) a negligible remainder (< 1e-9) leaves no entry behind; each
of the three operations maps a non-negative inventory to a non-negative
inventory, and remove_clamped returns a non-negative amount; and the
full per-tick pipeline step preserves non-negativity of every world
market inventory, so quantities never go negative at any tick. -/
theorem C2_inventory_nonneg :
    (∀ (inv : Inventory) (c : String) (q : Rat), inv.add c q = none ↔ q < 0) ∧
    (∀ (inv : Inventory) (c : String) (q : Rat), inv.setItem c q = none ↔ q < 0) ∧
    (∀ (inv : Inventory) (c : String) (q : Rat), 0 ≤ q →
      ∃ inv', inv.remove_clamped c q = some (inv', min q (inv.get c))) ∧
    (∀ (inv : Inventory) (c : String) (q : Rat) (inv' : Inventory) (r : Rat),
      (inv.quantities.map Prod.fst).Nodup →
      inv.remove_clamped c q = some (inv', r) →
      qsub (inv.get c) r < invEps → alookup c inv'.quantities = none) ∧
    (∀ (inv : Inventory) (c : String) (q : Rat) (inv' : Inventory),
      inv.Nonneg → inv.add c q = some inv' → inv'.Nonneg) ∧
    (∀ (inv : Inventory) (c : String) (q : Rat) (inv' : Inventory) (r : Rat),
      inv.Nonneg → inv.remove_clamped c q = some (inv', r) →
      inv'.Nonneg ∧ 0 ≤ r) ∧
    (∀ (inv : Inventory) (c : String) (q : Rat) (inv' : Inventory),
      inv.Nonneg → inv.setItem c q = some inv' → inv'.Nonneg) ∧
    (∀ (sqrtFn : Rat → Rat) (s s' : UniverseState) (rep : TickReport),
      s.InvNonneg → step sqrtFn s = some (s', rep) → s'.InvNonneg) :=
  ⟨inv_add_none_iff, inv_setItem_none_iff, remove_clamped_amount,
   fun inv c q inv' r hnd h hsm => remove_clamped_deletes inv c q inv' r hnd h hsm,
   inv_add_nonneg,
   fun inv c q inv' r hn h => inv_remove_clamped_nonneg inv c q inv' r hn h,
   inv_setItem_nonneg, step_invNonneg⟩

theorem C2_inventory_nonneg_witness :
    (∃ inv', Inventory.remove_clamped ⟨[("food", 5)]⟩ "food" 3 =
      some (inv', min 3 ((⟨[("food", 5)]⟩ : Inventory).get "food"))) ∧
    C2_s1.InvNonneg :=
  ⟨C2_inventory_nonneg.2.2.1 ⟨[("food", 5)]⟩ "food" 3 (by decide),
   C2_inventory_nonneg.2.2.2.2.2.2.2 (fun x => x) C5_state C2_s1 C2_rep
     (by decide) rfl⟩
